import Mathlib

/-!
Verification development for the tinypy repository: a shallow embedding in
Lean 4 of the tokenizer (src/tinypy/tokenizer.py), the recursive-descent
parser (src/tinypy/parser.py) and the tree-walking interpreter
(src/tinypy/interpreter.py), together with theorems settling the frozen
claims about the pipeline.

Modelling conventions, stated once here:
* Python exceptions (raise Exception, assert failures, AttributeError on a
  missing enum member, IndexError on an out-of-bounds sequence access,
  TypeError / ZeroDivisionError from an operator) are modelled as values of
  explicit error inductives returned through Except.
* Python loops are modelled either structurally (scanning loops that walk
  down the remaining input list) or with an explicit fuel parameter
  (the tokenizer main loop, the mutually recursive parser and interpreter);
  running out of fuel is a dedicated error value, so every value returned
  through .ok is genuinely produced by the embedded code.
* Python str/int/float/bool/None literal and runtime values are modelled by
  the Value inductive.  Python floats are modelled as exact rationals: the
  literal text digits.digits denotes the evident rational.  No claim below
  depends on IEEE-754 rounding or on the textual rendering of a float; the
  rendering divergence is confined to pyStr on the float constructor.
* Python dicts keyed by identifier strings are modelled as insertion-ordered
  association lists with in-place update, mirroring dict.get / in / item
  assignment.
-/

namespace Tinypy

/-- Token kinds, exactly the members of the TokenKind enum in
src/tinypy/tokenizer.py.  Note that GREATER, LESS, LESS_EQUALS,
GREATER_EQUALS and COMMA are *not* members: the parser and interpreter
mention them, and evaluating such an attribute raises AttributeError. -/
inductive TokenKind where
  | LEFT_PAREN | RIGHT_PAREN | COLON | EQUALS | DOUBLE_EQUALS | NOT_EQUALS
  | PLUS | STAR | SLASH | MINUS | LESS_THAN | ARROW
  | NEWLINE | INDENT | DEDENT
  | INT | FLOAT | STR
  | IF | ELIF | ELSE
  | AND | OR | IS | NOT | NONE
  | PRINT | DEF | RETURN | IDENTIFIER
  | BOOL
  | COMMENT
  | EOF
  deriving DecidableEq, Repr

/-- Python literal/runtime values (object or None): the value field of a
Token and the values manipulated by the interpreter. -/
inductive Value where
  | none
  | int (n : Int)
  | float (q : Rat)
  | str (s : String)
  | bool (b : Bool)
  deriving DecidableEq, Repr

/-- The Token dataclass: kind, line (default -1), raw text (default empty)
and optional literal value (default None). -/
structure Token where
  kind : TokenKind
  line : Int := -1
  text : String := ""
  value : Value := Value.none
  deriving DecidableEq, Repr

/-- The entries of the KEYWORDS dict of tokenizer.py in insertion order. -/
def KEYWORDS_LIST : List (String × TokenKind) :=
  [("int", TokenKind.INT), ("float", TokenKind.FLOAT), ("str", TokenKind.STR),
   ("print", TokenKind.PRINT), ("if", TokenKind.IF), ("else", TokenKind.ELSE),
   ("def", TokenKind.DEF), ("return", TokenKind.RETURN),
   ("bool", TokenKind.BOOL), ("True", TokenKind.BOOL),
   ("False", TokenKind.BOOL), ("and", TokenKind.AND), ("or", TokenKind.OR),
   ("is", TokenKind.IS), ("not", TokenKind.NOT), ("None", TokenKind.NONE)]

/-- KEYWORDS.get s (None when absent), the keyword dict as an
insertion-ordered association list. -/
def KEYWORDS (s : String) : Option TokenKind :=
  KEYWORDS_LIST.lookup s

/-- INDENT_SPACES = 4. -/
def INDENT_SPACES : Nat := 4

/-- Errors with which tokenize can fail.  indexError models the host
IndexError raised by an out-of-bounds read of the source buffer (the
unguarded advance).  The remaining constructors other than outOfFuel model
the exceptions that tokenizer.py raises explicitly (its LexErrors):
tabsForbidden, invalidIndent (the assert on the indent remainder),
unexpectedBang, expectedDigitAfterDot, didNotHandle. -/
inductive LexErr where
  | outOfFuel
  | indexError
  | tabsForbidden
  | invalidIndent
  | unexpectedBang
  | expectedDigitAfterDot
  | didNotHandle (c : Char)
  deriving DecidableEq, Repr

/-- Whether a lex failure is one of the exceptions tokenizer.py itself
raises (a LexError), as opposed to the host IndexError from reading past
the end of the buffer, or fuel exhaustion of the model. -/
def LexErr.isRaisedLexError : LexErr → Bool
  | LexErr.indexError => false
  | LexErr.outOfFuel => false
  | _ => true

/-- peek: the next character, or the null character at end of input. -/
def peekc : List Char → Char
  | [] => Char.ofNat 0
  | c :: _ => c

/-- The leading-space loop of Tokenizer.whitespace: count and consume
spaces.  Returns the count and the remaining input. -/
def skipSpaces : List Char → Nat × List Char
  | [] => (0, [])
  | c :: rest =>
    if c = ' ' then
      let (n, r) := skipSpaces rest
      (n + 1, r)
    else (0, c :: rest)

/-- Tokenizer.match: consume the next character iff it equals expected. -/
def matchChar (expected : Char) : List Char → Bool × List Char
  | [] => (false, [])
  | c :: rest => if c = expected then (true, rest) else (false, c :: rest)

/-- The string-literal scan: while peek is not a double quote, advance;
then advance past the closing quote.  Reaching the end of the input makes
the unguarded advance read past the buffer: IndexError.  Returns the
interior characters and the remaining input. -/
def strScan : List Char → Except LexErr (List Char × List Char)
  | [] => Except.error LexErr.indexError
  | c :: rest =>
    if c = '"' then Except.ok ([], rest)
    else
      match strScan rest with
      | Except.error e => Except.error e
      | Except.ok (s, r) => Except.ok (c :: s, r)

/-- The digit scan: consume while the next character is a digit. -/
def digitsScan : List Char → List Char × List Char
  | [] => ([], [])
  | c :: rest =>
    if c.isDigit then
      let (ds, r) := digitsScan rest
      (c :: ds, r)
    else ([], c :: rest)

/-- The identifier scan: consume while the next character is alphabetic or
an underscore. -/
def identScan : List Char → List Char × List Char
  | [] => ([], [])
  | c :: rest =>
    if c.isAlpha ∨ c = '_' then
      let (cs, r) := identScan rest
      (c :: cs, r)
    else ([], c :: rest)

/-- The comment scan: consume while the next character is not a newline and
input remains. -/
def commentScan : List Char → List Char × List Char
  | [] => ([], [])
  | c :: rest =>
    if c = '\n' then ([], c :: rest)
    else
      let (cs, r) := commentScan rest
      (c :: cs, r)

/-- Numeric value of a digit run (int(text)). -/
def natOfDigits (ds : List Char) : Nat :=
  ds.foldl (fun a c => a * 10 + (c.toNat - 48)) 0

/-- Value of a float literal text d1.d2 as an exact rational. -/
def ratOfParts (d1 d2 : List Char) : Rat :=
  (natOfDigits d1 : Rat) + (natOfDigits d2 : Rat) / ((10 : Rat) ^ d2.length)

/-- The kind of the last token added, if any (self.tokens[-1].kind). -/
def lastKind (toks : List Token) : Option TokenKind :=
  toks.getLast?.map Token.kind

/-- A run of n spaces, the raw text recorded for INDENT/DEDENT tokens. -/
def mkSpaces (n : Nat) : String :=
  String.mk (List.replicate n ' ')

/-- A token with no literal value. -/
def tk (kind : TokenKind) (line : Int) (text : String) : Token :=
  { kind := kind, line := line, text := text, value := Value.none }

/-- The DEDENT-emitting loop of Tokenizer.whitespace: while the new indent
level is smaller than the stack top, pop the stack, emit one DEDENT, and
re-read the top (IndexError if the stack has become empty).  The text of
the emitted tokens is the leading whitespace of the line. -/
def dedentLoop (line : Int) (txt : String) (lvl : Nat) :
    List Nat → List Token → Except LexErr (List Nat × List Token)
  | [], _ => Except.error LexErr.indexError
  | cur :: rest, toks =>
    if lvl < cur then
      match rest with
      | [] => Except.error LexErr.indexError
      | newTop :: rest2 =>
        dedentLoop line txt lvl (newTop :: rest2)
          (toks ++ [tk TokenKind.DEDENT line txt])
    else Except.ok (cur :: rest, toks)

/-- Tokenizer.whitespace: consume leading spaces; reject a tab; if the last
token exists and is not a NEWLINE, stop; otherwise compute the indent level
(divmod by 4, asserting exact division), compare with the stack top, and
push-and-emit INDENT, pop-and-emit DEDENTs, or do nothing. -/
def whitespace (line : Int) (toks : List Token) (stack : List Nat)
    (rest : List Char) : Except LexErr (List Token × List Nat × List Char) :=
  let (spaces, rest1) := skipSpaces rest
  if peekc rest1 = '\t' then Except.error LexErr.tabsForbidden
  else if toks ≠ [] ∧ lastKind toks ≠ some TokenKind.NEWLINE then
    Except.ok (toks, stack, rest1)
  else
    let indentLevel := spaces / INDENT_SPACES
    if spaces % INDENT_SPACES ≠ 0 then Except.error LexErr.invalidIndent
    else
      match stack with
      | [] => Except.error LexErr.indexError
      | current :: stackRest =>
        if indentLevel > current then
          Except.ok
            (toks ++ [tk TokenKind.INDENT line (mkSpaces spaces)],
             indentLevel :: current :: stackRest, rest1)
        else if indentLevel < current then
          match dedentLoop line (mkSpaces spaces) indentLevel
              (current :: stackRest) toks with
          | Except.error e => Except.error e
          | Except.ok (stack2, toks2) => Except.ok (toks2, stack2, rest1)
        else Except.ok (toks, stack, rest1)

/-- Outcome of one iteration of the Tokenizer.tokenize while-loop. -/
inductive StepRes where
  | done (toks : List Token)
  | next (line : Int) (toks : List Token) (stack : List Nat)
      (rest : List Char)
  | err (e : LexErr)

/-- The body of the Tokenizer.tokenize loop after the whitespace call:
break at end of input (appending EOF), otherwise advance one character and
dispatch exactly as the if/elif chain of the source does. -/
def scanTok (line : Int) (toks : List Token) (stack : List Nat) :
    List Char → StepRes
  | [] => StepRes.done (toks ++ [tk TokenKind.EOF line ""])
  | c :: rest =>
      if c = '(' then
        StepRes.next line (toks ++ [tk TokenKind.LEFT_PAREN line "("]) stack rest
      else if c = ')' then
        StepRes.next line (toks ++ [tk TokenKind.RIGHT_PAREN line ")"]) stack rest
      else if c = ':' then
        StepRes.next line (toks ++ [tk TokenKind.COLON line ":"]) stack rest
      else if c = '+' then
        StepRes.next line (toks ++ [tk TokenKind.PLUS line "+"]) stack rest
      else if c = '*' then
        StepRes.next line (toks ++ [tk TokenKind.STAR line "*"]) stack rest
      else if c = '/' then
        StepRes.next line (toks ++ [tk TokenKind.SLASH line "/"]) stack rest
      else if c = '<' then
        StepRes.next line (toks ++ [tk TokenKind.LESS_THAN line "<"]) stack rest
      else if c = '#' then
        let (cs, r) := commentScan rest
        let comment := String.mk ('#' :: cs)
        StepRes.next line
          (toks ++ [{ kind := TokenKind.COMMENT, line := line, text := comment,
                      value := Value.str comment }]) stack r
      else if c = '\n' then
        StepRes.next (line + 1) (toks ++ [tk TokenKind.NEWLINE line "\n"]) stack rest
      else if c = ' ' then
        StepRes.next line toks stack rest
      else if c = '-' then
        match matchChar '>' rest with
        | (true, r) =>
          StepRes.next line (toks ++ [tk TokenKind.ARROW line "->"]) stack r
        | (false, r) =>
          StepRes.next line (toks ++ [tk TokenKind.MINUS line "-"]) stack r
      else if c = '=' then
        match matchChar '=' rest with
        | (true, r) =>
          StepRes.next line (toks ++ [tk TokenKind.DOUBLE_EQUALS line "=="]) stack r
        | (false, r) =>
          StepRes.next line (toks ++ [tk TokenKind.EQUALS line "="]) stack r
      else if c = '!' then
        match matchChar '=' rest with
        | (true, r) =>
          StepRes.next line (toks ++ [tk TokenKind.NOT_EQUALS line "!="]) stack r
        | (false, _) => StepRes.err LexErr.unexpectedBang
      else if c = '"' then
        match strScan rest with
        | Except.error e => StepRes.err e
        | Except.ok (s, r) =>
          StepRes.next line
            (toks ++ [{ kind := TokenKind.STR, line := line,
                        text := String.mk ('"' :: (s ++ ['"'])),
                        value := Value.str (String.mk s) }]) stack r
      else if c.isDigit then
        let (ds, r1) := digitsScan rest
        if peekc r1 = '.' then
          let r2 := r1.tail
          if ¬ (peekc r2).isDigit then StepRes.err LexErr.expectedDigitAfterDot
          else
            let (ds2, r3) := digitsScan r2
            StepRes.next line
              (toks ++ [{ kind := TokenKind.FLOAT, line := line,
                          text := String.mk ((c :: ds) ++ '.' :: ds2),
                          value := Value.float (ratOfParts (c :: ds) ds2) }])
              stack r3
        else
          StepRes.next line
            (toks ++ [{ kind := TokenKind.INT, line := line,
                        text := String.mk (c :: ds),
                        value := Value.int (natOfDigits (c :: ds)) }]) stack r1
      else if c.isAlpha ∨ c = '_' then
        let (cs, r) := identScan rest
        let text := String.mk (c :: cs)
        let kind := (KEYWORDS text).getD TokenKind.IDENTIFIER
        let value :=
          if text = "True" ∨ text = "False" then Value.bool (text = "True")
          else Value.str text
        StepRes.next line
          (toks ++ [{ kind := kind, line := line, text := text, value := value }])
          stack r
      else StepRes.err (LexErr.didNotHandle c)

/-- One iteration of the Tokenizer.tokenize loop: run whitespace when at
the start of a logical line, then scan the next token. -/
def lexStep (line : Int) (toks : List Token) (stack : List Nat)
    (rest : List Char) : StepRes :=
  match
    (if toks = [] ∨ lastKind toks = some TokenKind.NEWLINE then
      whitespace line toks stack rest
    else Except.ok (toks, stack, rest)) with
  | Except.error e => StepRes.err e
  | Except.ok (toks, stack, rest) => scanTok line toks stack rest

/-- The Tokenizer.tokenize while-loop, driven by fuel; one unit of fuel per
iteration.  Every iteration that continues consumes at least one source
character, so the fuel supplied by tokenize never runs out. -/
def lexLoop : Nat → Int → List Token → List Nat → List Char →
    Except LexErr (List Token)
  | 0, _, _, _, _ => Except.error LexErr.outOfFuel
  | fuel + 1, line, toks, stack, rest =>
    match lexStep line toks stack rest with
    | StepRes.done res => Except.ok res
    | StepRes.err e => Except.error e
    | StepRes.next line2 toks2 stack2 rest2 => lexLoop fuel line2 toks2 stack2 rest2

/-- tokenize(source): the Tokenizer constructor reads source[-1]
(IndexError on the empty string) and appends a trailing newline when
missing; lexing then starts at line 1 with no tokens and indent stack [0]. -/
def tokenize (source : String) : Except LexErr (List Token) :=
  match source.data.getLast? with
  | Option.none => Except.error LexErr.indexError
  | some last =>
    let cs := if last = '\n' then source.data else source.data ++ ['\n']
    lexLoop (cs.length + 1) 1 [] [0] cs

/-! ## Parser (src/tinypy/parser.py) -/

/-- Expression AST nodes of parser.py. -/
inductive PExpr where
  | Literal (value : Value)
  | GroupingExpr (expr : PExpr)
  | BinaryExpr (left : PExpr) (op : Token) (right : PExpr)
  | Var (name : Token)
  | CallExpr (callee : Token) (arguments : List PExpr)

/-- Statement AST nodes of parser.py.  FunctionStmt stores its body as a
BlockStmt; params is the ordered list of (name, type) token pairs. -/
inductive PStmt where
  | ExprStmt (expr : PExpr)
  | PrintStmt (expr : PExpr)
  | VarStmt (name : Token) (typeAnn : Token) (expr : PExpr)
  | AssignStmt (name : Token) (value : PExpr)
  | IfStmt (cond : PExpr) (ifBranch : PStmt) (elseBranch : Option PStmt)
  | BlockStmt (stmts : List PStmt)
  | CommentStmt (comment : Token)
  | FunctionStmt (name : Token) (params : List (Token × Token))
      (returnType : Token) (body : PStmt)
  | ReturnStmt (keyword : Token) (value : Option PExpr)

/-- Errors with which parsing can fail.  attributeError carries the name of
a TokenKind member that parser.py mentions but the TokenKind enum does not
define (GREATER, GREATER_EQUALS, LESS, LESS_EQUALS, COMMA), or of a missing
node attribute; evaluating such an attribute raises AttributeError in
Python.  syntaxErrorExpected / syntaxErrorOther model the SyntaxErrors the
parser raises; unreachableErr models the raise Exception in primary. -/
inductive ParseErr where
  | outOfFuel
  | indexError
  | attributeError (member : String)
  | syntaxErrorExpected (kind : TokenKind)
  | syntaxErrorOther
  | unreachableErr
  deriving DecidableEq, Repr

/-- Parser state: the token list and the cursor. -/
structure ParserState where
  position : Nat
  tokens : List Token
  deriving Repr

/-- Python list indexing with negative indices counting from the end;
out of range is IndexError. -/
def pyIndex (l : List Token) (i : Int) : Except ParseErr Token :=
  let j := if i < 0 then i + l.length else i
  if h : 0 ≤ j ∧ j < l.length then
    Except.ok (l.get ⟨j.toNat, by omega⟩)
  else Except.error ParseErr.indexError

/-- Parser.peek: the token at the cursor. -/
def peekT (st : ParserState) : Except ParseErr Token :=
  pyIndex st.tokens st.position

/-- Parser.is_done: the token at the cursor is EOF. -/
def isDoneT (st : ParserState) : Except ParseErr Bool := do
  let t ← peekT st
  pure (t.kind = TokenKind.EOF)

/-- Parser.check: False when done, else compare the peeked kind. -/
def checkT (kind : TokenKind) (st : ParserState) : Except ParseErr Bool := do
  if (← isDoneT st) then pure false
  else do
    let t ← peekT st
    pure (t.kind = kind)

/-- Parser.previous: the token before the cursor (Python index
position - 1, which wraps to the last token when position is 0). -/
def previousT (st : ParserState) : Except ParseErr Token :=
  pyIndex st.tokens ((st.position : Int) - 1)

/-- Parser.advance: move the cursor unless done, and return previous. -/
def advanceT (st : ParserState) : Except ParseErr (Token × ParserState) := do
  let st2 := if (← isDoneT st) then st else { st with position := st.position + 1 }
  let t ← previousT st2
  pure (t, st2)

/-- Parser.match over a list of kinds: advance past the first kind that
checks, reporting whether any did. -/
def matchT : List TokenKind → ParserState → Except ParseErr (Bool × ParserState)
  | [], st => Except.ok (false, st)
  | k :: ks, st => do
    if (← checkT k st) then
      let (_, st2) ← advanceT st
      pure (true, st2)
    else matchT ks st

/-- Parser.consume: advance past the expected kind or raise SyntaxError. -/
def consumeT (kind : TokenKind) (st : ParserState) :
    Except ParseErr (Token × ParserState) := do
  if (← checkT kind st) then advanceT st
  else Except.error (ParseErr.syntaxErrorExpected kind)
/-- A request to the parser: one of the mutually recursive recursive-
descent routines of Parser, together with the loop accumulators that the
iterate-while-matching loops and list-collecting loops of the source carry
between iterations. -/
inductive PReq where
  | emptyLines
  | primary
  | callLoop (e : PExpr)
  | callExpr
  | factorLoop (e : PExpr)
  | factor
  | termLoop (e : PExpr)
  | term
  | comparison
  | equalityLoop (e : PExpr)
  | equality
  | expr
  | printStmt
  | ifStmt
  | exprStmt
  | blockLoop (acc : List PStmt)
  | blockStmt
  | paramsLoop (acc : List (Token × Token))
  | functionStmt
  | stmt
  | varStmt
  | parseLoop (acc : List PStmt)

/-- The value each parser routine produces (besides the advanced cursor
state): expression routines build a PExpr, statement routines a PStmt,
the collecting loops lists. -/
def POut : PReq → Type
  | PReq.emptyLines => Unit
  | PReq.primary => PExpr
  | PReq.callLoop _ => PExpr
  | PReq.callExpr => PExpr
  | PReq.factorLoop _ => PExpr
  | PReq.factor => PExpr
  | PReq.termLoop _ => PExpr
  | PReq.term => PExpr
  | PReq.comparison => PExpr
  | PReq.equalityLoop _ => PExpr
  | PReq.equality => PExpr
  | PReq.expr => PExpr
  | PReq.printStmt => PStmt
  | PReq.ifStmt => PStmt
  | PReq.exprStmt => PStmt
  | PReq.blockLoop _ => List PStmt
  | PReq.blockStmt => PStmt
  | PReq.paramsLoop _ => List (Token × Token)
  | PReq.functionStmt => PStmt
  | PReq.stmt => PStmt
  | PReq.varStmt => PStmt
  | PReq.parseLoop _ => List PStmt

/-- One layer of the recursive-descent parser, with the mutual recursion
abstracted into the rec callback (parseGo below ties the knot, spending
one unit of fuel per layer).  Each branch mirrors the corresponding
method of Parser in parser.py. -/
def parseStep
    (rec : (r : PReq) → ParserState → Except ParseErr (POut r × ParserState)) :
    (r : PReq) → ParserState → Except ParseErr (POut r × ParserState)
  | PReq.emptyLines, st => do
    -- Parser.consume_empty_lines: match NEWLINE while possible
    let (m, st) ← matchT [TokenKind.NEWLINE] st
    if m then rec PReq.emptyLines st else pure ((), st)
  | PReq.primary, st => do
    -- Parser.primary: Var from IDENTIFIER; a parenthesised grouping; a
    -- Literal from INT/FLOAT/BOOL/STR; otherwise raise
    let (m, st) ← matchT [TokenKind.IDENTIFIER] st
    if m then do
      let t ← previousT st
      pure (PExpr.Var t, st)
    else do
      let (m, st) ← matchT [TokenKind.LEFT_PAREN] st
      if m then do
        let (e, st) ← rec PReq.expr st
        let (m, st) ← matchT [TokenKind.RIGHT_PAREN] st
        if ¬ m then Except.error ParseErr.syntaxErrorOther
        else pure (PExpr.GroupingExpr e, st)
      else do
        let (m, st) ← matchT [TokenKind.INT, TokenKind.FLOAT, TokenKind.BOOL,
          TokenKind.STR] st
        if m then do
          let t ← previousT st
          pure (PExpr.Literal t.value, st)
        else Except.error ParseErr.unreachableErr
  | PReq.callLoop e, st => do
    -- the while-True loop of Parser.call_expr: on a left parenthesis,
    -- collect arguments and form CallExpr(expr.name, arguments).  With at
    -- least one argument, the loop body evaluates
    -- self.match(TokenKind.COMMA) after the argument expression; COMMA is
    -- not a member of TokenKind, so that access raises AttributeError
    -- (the argument expression itself already raises in comparison).
    -- expr.name raises AttributeError unless expr is a Var.
    let (m, st) ← matchT [TokenKind.LEFT_PAREN] st
    if m then do
      if ¬ (← checkT TokenKind.RIGHT_PAREN st) then do
        let (_, _) ← rec PReq.expr st
        Except.error (ParseErr.attributeError "COMMA")
      else do
        let (_, st) ← consumeT TokenKind.RIGHT_PAREN st
        match e with
        | PExpr.Var name => rec (PReq.callLoop (PExpr.CallExpr name [])) st
        | _ => Except.error (ParseErr.attributeError "name")
    else pure (e, st)
  | PReq.callExpr, st => do
    -- Parser.call_expr: a primary followed by call suffixes
    let (e, st) ← rec PReq.primary st
    rec (PReq.callLoop e) st
  | PReq.factorLoop e, st => do
    -- the iterate-while-matching loop of Parser.factor.  Note the right
    -- operand is produced by a recursive call to factor itself (not
    -- call_expr), so a * b / c parses as Binary(a, *, Binary(b, /, c))
    let (m, st) ← matchT [TokenKind.STAR, TokenKind.SLASH] st
    if m then do
      let op ← previousT st
      let (right, st) ← rec PReq.factor st
      rec (PReq.factorLoop (PExpr.BinaryExpr e op right)) st
    else pure (e, st)
  | PReq.factor, st => do
    -- Parser.factor: the multiplicative precedence level
    let (e, st) ← rec PReq.callExpr st
    rec (PReq.factorLoop e) st
  | PReq.termLoop e, st => do
    -- the iterate-while-matching loop of Parser.term (additive level);
    -- the right operand comes from factor
    let (m, st) ← matchT [TokenKind.PLUS, TokenKind.MINUS] st
    if m then do
      let op ← previousT st
      let (right, st) ← rec PReq.factor st
      rec (PReq.termLoop (PExpr.BinaryExpr e op right)) st
    else pure (e, st)
  | PReq.term, st => do
    -- Parser.term (its trailing assert expr is not None always holds,
    -- the loop result being an Expr)
    let (e, st) ← rec PReq.factor st
    rec (PReq.termLoop e) st
  | PReq.comparison, st => do
    -- Parser.comparison: after parsing a term, the while condition
    -- evaluates self.match(TokenKind.GREATER, TokenKind.GREATER_EQUALS,
    -- TokenKind.LESS, TokenKind.LESS_EQUALS).  GREATER, the first
    -- argument evaluated, is not a member of the TokenKind enum of
    -- tokenizer.py, so the attribute access raises AttributeError before
    -- match is called; comparison therefore never returns normally.
    let (_, _) ← rec PReq.term st
    Except.error (ParseErr.attributeError "GREATER")
  | PReq.equalityLoop e, st => do
    -- the iterate-while-matching loop of Parser.equality
    let (m, st) ← matchT [TokenKind.DOUBLE_EQUALS, TokenKind.NOT_EQUALS] st
    if m then do
      let op ← previousT st
      let (right, st) ← rec PReq.comparison st
      rec (PReq.equalityLoop (PExpr.BinaryExpr e op right)) st
    else pure (e, st)
  | PReq.equality, st => do
    -- Parser.equality
    let (e, st) ← rec PReq.comparison st
    rec (PReq.equalityLoop e) st
  | PReq.expr, st =>
    -- Parser.expr
    rec PReq.equality st
  | PReq.printStmt, st => do
    -- Parser.print_stmt (the leading PRINT token is already consumed)
    let (m, st) ← matchT [TokenKind.LEFT_PAREN] st
    if ¬ m then Except.error ParseErr.syntaxErrorOther
    else do
      let (value, st) ← rec PReq.expr st
      let (m, st) ← matchT [TokenKind.RIGHT_PAREN] st
      if ¬ m then Except.error ParseErr.syntaxErrorOther
      else do
        let (m, st) ← matchT [TokenKind.NEWLINE] st
        if ¬ m then Except.error ParseErr.syntaxErrorOther
        else pure (PStmt.PrintStmt value, st)
  | PReq.ifStmt, st => do
    -- Parser.if_stmt (the leading IF token is already consumed)
    let (cond, st) ← rec PReq.expr st
    let (_, st) ← consumeT TokenKind.COLON st
    let (_, st) ← consumeT TokenKind.NEWLINE st
    let (ifBranch, st) ← rec PReq.blockStmt st
    let (m, st) ← matchT [TokenKind.ELSE] st
    if m then do
      let (_, st) ← consumeT TokenKind.COLON st
      let (_, st) ← consumeT TokenKind.NEWLINE st
      let (elseBranch, st) ← rec PReq.blockStmt st
      pure (PStmt.IfStmt cond ifBranch (some elseBranch), st)
    else pure (PStmt.IfStmt cond ifBranch Option.none, st)
  | PReq.exprStmt, st => do
    -- Parser.expr_stmt
    let (e, st) ← rec PReq.expr st
    let (_, st) ← consumeT TokenKind.NEWLINE st
    pure (PStmt.ExprStmt e, st)
  | PReq.blockLoop acc, st => do
    -- the statement-accumulating loop of Parser.block_stmt: while the
    -- next token is not DEDENT, parse a var_stmt and skip blank lines
    if ¬ (← checkT TokenKind.DEDENT st) then do
      let (s, st) ← rec PReq.varStmt st
      let s2 : PStmt := s
      let (_, st) ← rec PReq.emptyLines st
      rec (PReq.blockLoop (acc ++ [s2])) st
    else pure (acc, st)
  | PReq.blockStmt, st => do
    -- Parser.block_stmt: skip blank lines, require INDENT, accumulate
    -- statements until DEDENT, require DEDENT, skip blank lines
    let (_, st) ← rec PReq.emptyLines st
    let (_, st) ← consumeT TokenKind.INDENT st
    let (stmts, st) ← rec (PReq.blockLoop []) st
    let (_, st) ← consumeT TokenKind.DEDENT st
    let (_, st) ← rec PReq.emptyLines st
    pure (PStmt.BlockStmt stmts, st)
  | PReq.paramsLoop acc, st => do
    -- the parameter-collecting loop of Parser.function_stmt.  After each
    -- name-colon-type group the source evaluates
    -- self.match(TokenKind.COMMA); COMMA is not a member of the TokenKind
    -- enum, so the access raises AttributeError: any parameter list with
    -- at least one parameter fails
    let (paramName, st) ← consumeT TokenKind.IDENTIFIER st
    let (_, st) ← consumeT TokenKind.COLON st
    let (m, st) ← matchT [TokenKind.INT, TokenKind.FLOAT, TokenKind.STR,
      TokenKind.BOOL] st
    if ¬ m then Except.error ParseErr.syntaxErrorOther
    else do
      let paramType ← previousT st
      let _ := acc ++ [(paramName, paramType)]
      Except.error (ParseErr.attributeError "COMMA")
  | PReq.functionStmt, st => do
    -- Parser.function_stmt (the leading DEF token is already consumed)
    let (name, st) ← consumeT TokenKind.IDENTIFIER st
    let (_, st) ← consumeT TokenKind.LEFT_PAREN st
    let (params, st) ←
      if ¬ (← checkT TokenKind.RIGHT_PAREN st) then rec (PReq.paramsLoop []) st
      else pure (([] : List (Token × Token)), st)
    let (_, st) ← consumeT TokenKind.RIGHT_PAREN st
    let (_, st) ← consumeT TokenKind.ARROW st
    let (m, st) ← matchT [TokenKind.INT, TokenKind.FLOAT, TokenKind.BOOL,
      TokenKind.STR] st
    if ¬ m then Except.error ParseErr.syntaxErrorOther
    else do
      let returnType ← previousT st
      let (_, st) ← consumeT TokenKind.COLON st
      let (_, st) ← consumeT TokenKind.NEWLINE st
      let (body, st) ← rec PReq.blockStmt st
      pure (PStmt.FunctionStmt name params returnType body, st)
  | PReq.stmt, st => do
    -- Parser.stmt: dispatch on DEF / RETURN / PRINT / IF / COMMENT,
    -- falling through to an expression statement
    let (m, st) ← matchT [TokenKind.DEF] st
    if m then rec PReq.functionStmt st
    else do
      let (m, st) ← matchT [TokenKind.RETURN] st
      if m then do
        let keyword ← previousT st
        let (value, st) ← rec PReq.expr st
        let (_, st) ← consumeT TokenKind.NEWLINE st
        pure (PStmt.ReturnStmt keyword (some value), st)
      else do
        let (m, st) ← matchT [TokenKind.PRINT] st
        if m then rec PReq.printStmt st
        else do
          let (m, st) ← matchT [TokenKind.IF] st
          if m then rec PReq.ifStmt st
          else do
            let (m, st) ← matchT [TokenKind.COMMENT] st
            if m then do
              let c ← previousT st
              let (_, st) ← consumeT TokenKind.NEWLINE st
              pure (PStmt.CommentStmt c, st)
            else rec PReq.exprStmt st
  | PReq.varStmt, st => do
    -- Parser.var_stmt: a leading IDENTIFIER followed by EQUALS is an
    -- assignment; followed by COLON a typed declaration; otherwise the
    -- cursor is moved back one token and stmt handles it
    let (m, st) ← matchT [TokenKind.IDENTIFIER] st
    if m then do
      if (← checkT TokenKind.EQUALS st) then do
        let name ← previousT st
        let (_, st) ← advanceT st
        let (value, st) ← rec PReq.expr st
        let (_, st) ← consumeT TokenKind.NEWLINE st
        pure (PStmt.AssignStmt name value, st)
      else if (← checkT TokenKind.COLON st) then do
        let name ← previousT st
        let (_, st) ← advanceT st
        let (m, st) ← matchT [TokenKind.INT, TokenKind.FLOAT, TokenKind.STR,
          TokenKind.BOOL] st
        if ¬ m then Except.error ParseErr.syntaxErrorOther
        else do
          let typeAnn ← previousT st
          let (m, st) ← matchT [TokenKind.EQUALS] st
          if ¬ m then Except.error ParseErr.syntaxErrorOther
          else do
            let (e, st) ← rec PReq.expr st
            let (_, st) ← consumeT TokenKind.NEWLINE st
            pure (PStmt.VarStmt name typeAnn e, st)
      else rec PReq.stmt { st with position := st.position - 1 }
    else rec PReq.stmt st
  | PReq.parseLoop acc, st => do
    -- the statement loop of Parser.parse
    if ¬ (← isDoneT st) then do
      let (s, st) ← rec PReq.varStmt st
      let s2 : PStmt := s
      let (_, st) ← rec PReq.emptyLines st
      rec (PReq.parseLoop (acc ++ [s2])) st
    else pure (acc, st)

/-- The fuel-driven parser: one unit of fuel per routine layer. -/
def parseGo : Nat → (r : PReq) → ParserState →
    Except ParseErr (POut r × ParserState)
  | 0, _, _ => Except.error ParseErr.outOfFuel
  | fuel + 1, r, st => parseStep (parseGo fuel) r st

/-- Parser.consume_empty_lines. -/
def consumeEmptyLines (fuel : Nat) (st : ParserState) :
    Except ParseErr ParserState :=
  Except.map (fun p => p.2) (parseGo fuel PReq.emptyLines st)

/-- Parser.primary. -/
def primaryP (fuel : Nat) (st : ParserState) :
    Except ParseErr (PExpr × ParserState) :=
  parseGo fuel PReq.primary st

/-- Parser.call_expr. -/
def callExprP (fuel : Nat) (st : ParserState) :
    Except ParseErr (PExpr × ParserState) :=
  parseGo fuel PReq.callExpr st

/-- Parser.factor. -/
def factorP (fuel : Nat) (st : ParserState) :
    Except ParseErr (PExpr × ParserState) :=
  parseGo fuel PReq.factor st

/-- Parser.term. -/
def termP (fuel : Nat) (st : ParserState) :
    Except ParseErr (PExpr × ParserState) :=
  parseGo fuel PReq.term st

/-- Parser.comparison. -/
def comparisonP (fuel : Nat) (st : ParserState) :
    Except ParseErr (PExpr × ParserState) :=
  parseGo fuel PReq.comparison st

/-- Parser.equality. -/
def equalityP (fuel : Nat) (st : ParserState) :
    Except ParseErr (PExpr × ParserState) :=
  parseGo fuel PReq.equality st

/-- Parser.expr. -/
def exprP (fuel : Nat) (st : ParserState) :
    Except ParseErr (PExpr × ParserState) :=
  parseGo fuel PReq.expr st

/-- Parser.stmt. -/
def stmtP (fuel : Nat) (st : ParserState) :
    Except ParseErr (PStmt × ParserState) :=
  parseGo fuel PReq.stmt st

/-- Parser.var_stmt. -/
def varStmtP (fuel : Nat) (st : ParserState) :
    Except ParseErr (PStmt × ParserState) :=
  parseGo fuel PReq.varStmt st

/-- Parser.block_stmt. -/
def blockStmtP (fuel : Nat) (st : ParserState) :
    Except ParseErr (PStmt × ParserState) :=
  parseGo fuel PReq.blockStmt st

/-- Parser.function_stmt. -/
def functionStmtP (fuel : Nat) (st : ParserState) :
    Except ParseErr (PStmt × ParserState) :=
  parseGo fuel PReq.functionStmt st

/-- Parser.parse over a token list, starting at position 0: skip blank
lines, then accumulate var_stmt results until the EOF token. -/
def parseTokens (fuel : Nat) (tokens : List Token) :
    Except ParseErr (List PStmt) :=
  match fuel with
  | 0 => Except.error ParseErr.outOfFuel
  | fuel + 1 => do
    let st : ParserState := { position := 0, tokens := tokens }
    let st ← consumeEmptyLines fuel st
    let (stmts, _) ← parseGo fuel (PReq.parseLoop []) st
    pure stmts

/-- Errors of the tokenize-then-parse pipeline. -/
inductive TpErr where
  | lexErr (e : LexErr)
  | parseErr (e : ParseErr)
  deriving DecidableEq, Repr

/-- parse(source) = Parser(tokenize(source)).parse().  The parser fuel is
generous in the token count; no claim depends on it running out. -/
def parse (source : String) : Except TpErr (List PStmt) :=
  match tokenize source with
  | Except.error e => Except.error (TpErr.lexErr e)
  | Except.ok toks =>
    match parseTokens (toks.length * 64 + 64) toks with
    | Except.error e => Except.error (TpErr.parseErr e)
    | Except.ok stmts => Except.ok stmts

/-! ## Interpreter (src/tinypy/interpreter.py) -/

/-- Errors with which evaluation can fail.  typeError and
zeroDivisionError model the host TypeError / ZeroDivisionError raised by a
Python operator on unsupported operands; notDefined and alreadyDefined the
raise Exception calls of visit_var / visit_assign_stmt / visit_var_stmt;
assertionFailed the asserts of visit_function_stmt and visit_call_expr;
attributeError a TokenKind member mentioned by visit_binary_expr that the
enum does not define. -/
inductive RunErr where
  | outOfFuel
  | typeError
  | zeroDivisionError
  | notDefined (name : String)
  | alreadyDefined (name : String)
  | assertionFailed
  | attributeError (member : String)
  deriving DecidableEq, Repr

/-- Interpreter state: the flat variable dict, the function dict, the
pending return value register, and the lines written by print (the
observable output). -/
structure IState where
  values : List (String × Value)
  functions : List (String × PStmt)
  returnValue : Value
  output : List String

/-- The initial Interpreter state. -/
def initState : IState :=
  { values := [], functions := [], returnValue := Value.none, output := [] }

/-- dict.get: the value stored under a key, if present. -/
def pyDictGet {α : Type} (d : List (String × α)) (k : String) : Option α :=
  match d with
  | [] => Option.none
  | (k2, v) :: rest => if k2 = k then some v else pyDictGet rest k

/-- dict item assignment: update in place, else append. -/
def pyDictSet {α : Type} (d : List (String × α)) (k : String) (v : α) :
    List (String × α) :=
  match d with
  | [] => [(k, v)]
  | (k2, v2) :: rest =>
    if k2 = k then (k2, v) :: rest else (k2, v2) :: pyDictSet rest k v

/-- The in operator on a dict. -/
def pyDictContains {α : Type} (d : List (String × α)) (k : String) : Bool :=
  (pyDictGet d k).isSome

/-- str(value): the display text of a value.  Identifier handling and the
claims below only depend on the int, str, bool and None cases; the float
rendering is an exact-rational placeholder for the IEEE repr, which no
claim inspects. -/
def pyStr : Value → String
  | Value.none => "None"
  | Value.int n => toString n
  | Value.float q => toString q
  | Value.str s => s
  | Value.bool b => if b then "True" else "False"

/-- Python truthiness, used by visit_if_stmt. -/
def pyTruthy : Value → Bool
  | Value.none => false
  | Value.int n => n ≠ 0
  | Value.float q => q ≠ 0
  | Value.str s => s ≠ ""
  | Value.bool b => b

/-- Whether a value is a str instance. -/
def isStrV : Value → Bool
  | Value.str _ => true
  | _ => false

/-- Whether a value is a float instance. -/
def isFloatV : Value → Bool
  | Value.float _ => true
  | _ => false

/-- The numeric content of a value (bool counts as 0/1, as in Python). -/
def vnum : Value → Option Rat
  | Value.int n => some (n : Rat)
  | Value.float q => some q
  | Value.bool b => some (if b then 1 else 0)
  | _ => Option.none

/-- The int content of a value (bool counts as 0/1). -/
def vint : Value → Option Int
  | Value.int n => some n
  | Value.bool b => some (if b then 1 else 0)
  | _ => Option.none

/-- Package a numeric result: float if either operand was a float, else
int (Python promotes to float, and bool arithmetic yields int). -/
def numResult (l r : Value) (q : Rat) : Value :=
  if isFloatV l ∨ isFloatV r then Value.float q else Value.int q.num

/-- Python left + right. -/
def pyAdd : Value → Value → Except RunErr Value
  | Value.str a, Value.str b => Except.ok (Value.str (a ++ b))
  | Value.str _, _ => Except.error RunErr.typeError
  | _, Value.str _ => Except.error RunErr.typeError
  | l, r =>
    match vnum l, vnum r with
    | some a, some b => Except.ok (numResult l r (a + b))
    | _, _ => Except.error RunErr.typeError

/-- Python left - right: no str instance supports subtraction. -/
def pySub : Value → Value → Except RunErr Value
  | Value.str _, _ => Except.error RunErr.typeError
  | _, Value.str _ => Except.error RunErr.typeError
  | l, r =>
    match vnum l, vnum r with
    | some a, some b => Except.ok (numResult l r (a - b))
    | _, _ => Except.error RunErr.typeError

/-- Python left * right: str * str is a TypeError; str * int repeats the
string (unreachable from visit_binary_expr, which has coerced both
operands to str whenever either is one). -/
def pyMul : Value → Value → Except RunErr Value
  | Value.str _, Value.str _ => Except.error RunErr.typeError
  | Value.str a, r =>
    match vint r with
    | some n => Except.ok (Value.str (String.join (List.replicate n.toNat a)))
    | Option.none => Except.error RunErr.typeError
  | l, Value.str b =>
    match vint l with
    | some n => Except.ok (Value.str (String.join (List.replicate n.toNat b)))
    | Option.none => Except.error RunErr.typeError
  | l, r =>
    match vnum l, vnum r with
    | some a, some b => Except.ok (numResult l r (a * b))
    | _, _ => Except.error RunErr.typeError

/-- Python left / right: true division, always a float on numbers;
division by zero raises ZeroDivisionError; no str instance supports it. -/
def pyDiv : Value → Value → Except RunErr Value
  | Value.str _, _ => Except.error RunErr.typeError
  | _, Value.str _ => Except.error RunErr.typeError
  | l, r =>
    match vnum l, vnum r with
    | some a, some b =>
      if b = 0 then Except.error RunErr.zeroDivisionError
      else Except.ok (Value.float (a / b))
    | _, _ => Except.error RunErr.typeError

/-- Python left == right: numeric values compare numerically (bool counts
as 0/1), strings by content, None equals None, cross-kind otherwise
unequal. -/
def pyEqV (l r : Value) : Bool :=
  match vnum l, vnum r with
  | some a, some b => a = b
  | _, _ =>
    match l, r with
    | Value.str a, Value.str b => a = b
    | Value.none, Value.none => true
    | _, _ => false

/-- Interpreter.visit_binary_expr after both operands are evaluated: if
either operand is a str, both are coerced to their display text; then the
if/elif chain on the operator kind runs.  After the NOT_EQUALS arm the
source compares kind with TokenKind.LESS, which is not a member of the
TokenKind enum: that attribute access raises AttributeError (so the
GREATER / LESS_EQUALS / GREATER_EQUALS arms and the final
NotImplementedError are dead code). -/
def visitBinaryOp (kind : TokenKind) (left right : Value) :
    Except RunErr Value :=
  let l := if isStrV left ∨ isStrV right then Value.str (pyStr left) else left
  let r := if isStrV left ∨ isStrV right then Value.str (pyStr right) else right
  if kind = TokenKind.PLUS then pyAdd l r
  else if kind = TokenKind.MINUS then pySub l r
  else if kind = TokenKind.STAR then pyMul l r
  else if kind = TokenKind.SLASH then pyDiv l r
  else if kind = TokenKind.DOUBLE_EQUALS then Except.ok (Value.bool (pyEqV l r))
  else if kind = TokenKind.NOT_EQUALS then Except.ok (Value.bool (¬ pyEqV l r))
  else Except.error (RunErr.attributeError "LESS")

/-- The string key carried by an identifier token's value (identifier and
keyword tokens always carry Value.str of their text; the display-text
fallback keeps the function total). -/
def tokenKey (t : Token) : String :=
  match t.value with
  | Value.str s => s
  | v => pyStr v

/-- Bind each parameter name to its argument (the zip loop of
visit_call_expr). -/
def bindParams (values : List (String × Value))
    (params : List (Token × Token)) (args : List Value) :
    List (String × Value) :=
  match params, args with
  | (pname, _) :: ps, a :: as_ => bindParams (pyDictSet values (tokenKey pname) a) ps as_
  | _, _ => values

/-- A request to the interpreter: evaluate an expression, evaluate a list
of call arguments, execute a statement, or execute a list of statements
(the four mutually recursive activities of the Interpreter visitors). -/
inductive IReq where
  | expr (e : PExpr)
  | args (es : List PExpr)
  | stmt (s : PStmt)
  | stmts (ss : List PStmt)

/-- The result a request produces (expressions yield a value, and every
activity threads the interpreter state, which calls mutate). -/
def IOut : IReq → Type
  | IReq.expr _ => Value × IState
  | IReq.args _ => List Value × IState
  | IReq.stmt _ => IState
  | IReq.stmts _ => IState

/-- One layer of the Interpreter visitors, with the mutual recursion
abstracted into the rec callback (interpGo below ties the knot, spending
one unit of fuel per layer).  Each branch mirrors the corresponding
visitor of interpreter.py. -/
def interpStep (rec : (r : IReq) → IState → Except RunErr (IOut r)) :
    (r : IReq) → IState → Except RunErr (IOut r)
  | IReq.expr e, st =>
    -- Interpreter.evaluate / the expression visitors
    match e with
    | PExpr.Literal v => Except.ok (v, st)
    | PExpr.GroupingExpr inner => rec (IReq.expr inner) st
    | PExpr.BinaryExpr l op r => do
      let (lv, st) ← rec (IReq.expr l) st
      let (rv, st) ← rec (IReq.expr r) st
      let v ← visitBinaryOp op.kind lv rv
      pure (v, st)
    | PExpr.Var name =>
      -- visit_var: dict.get, with a stored None indistinguishable from absence
      let value := (pyDictGet st.values (tokenKey name)).getD Value.none
      if value = Value.none then
        Except.error (RunErr.notDefined (tokenKey name))
      else Except.ok (value, st)
    | PExpr.CallExpr callee arguments =>
      -- visit_call_expr
      match pyDictGet st.functions (tokenKey callee) with
      | Option.none => Except.error RunErr.assertionFailed
      | some fdecl => do
        let (args, st) ← rec (IReq.args arguments) st
        match fdecl with
        | PStmt.FunctionStmt _ params _ body =>
          if args.length ≠ params.length then Except.error RunErr.assertionFailed
          else do
            let previousValues := st.values
            let st := { st with values := bindParams st.values params args }
            let st := { st with returnValue := Value.none }
            let st ← rec (IReq.stmt body) st
            pure (st.returnValue, { st with values := previousValues })
        | _ => Except.error RunErr.assertionFailed
  | IReq.args es, st =>
    -- the argument list comprehension of visit_call_expr, left to right
    match es with
    | [] => Except.ok ([], st)
    | a :: rest => do
      let (v, st) ← rec (IReq.expr a) st
      let (vs, st) ← rec (IReq.args rest) st
      pure (v :: vs, st)
  | IReq.stmt s, st =>
    -- Interpreter.execute / the statement visitors
    match s with
    | PStmt.ExprStmt e => do
      let (_, st) ← rec (IReq.expr e) st
      pure st
    | PStmt.PrintStmt e => do
      let (v, st) ← rec (IReq.expr e) st
      pure { st with output := st.output ++ [pyStr v] }
    | PStmt.VarStmt name _ e =>
      -- visit_var_stmt keys the dict by the token text
      let key := name.text
      if pyDictContains st.values key then
        Except.error (RunErr.alreadyDefined key)
      else do
        let (v, st) ← rec (IReq.expr e) st
        pure { st with values := pyDictSet st.values key v }
    | PStmt.AssignStmt name value =>
      -- visit_assign_stmt checks the current value before evaluating
      let key := tokenKey name
      let curr := (pyDictGet st.values key).getD Value.none
      if curr = Value.none then Except.error (RunErr.notDefined key)
      else do
        let (v, st) ← rec (IReq.expr value) st
        pure { st with values := pyDictSet st.values key v }
    | PStmt.IfStmt cond ifBranch elseBranch => do
      let (c, st) ← rec (IReq.expr cond) st
      if pyTruthy c then rec (IReq.stmt ifBranch) st
      else
        match elseBranch with
        | some eb => rec (IReq.stmt eb) st
        | Option.none => pure st
    | PStmt.BlockStmt stmts => rec (IReq.stmts stmts) st
    | PStmt.CommentStmt _ => pure st
    | PStmt.FunctionStmt name _ _ _ =>
      let key := tokenKey name
      if pyDictContains st.functions key then Except.error RunErr.assertionFailed
      else pure { st with functions := pyDictSet st.functions key s }
    | PStmt.ReturnStmt _ value =>
      -- visit_return_stmt merely stores into the pending-return register
      match value with
      | Option.none => pure { st with returnValue := Value.none }
      | some e => do
        let (v, st) ← rec (IReq.expr e) st
        pure { st with returnValue := v }
  | IReq.stmts ss, st =>
    -- the statement loop of visit_block_stmt / Interpreter.interpret
    match ss with
    | [] => Except.ok st
    | s :: rest => do
      let st ← rec (IReq.stmt s) st
      rec (IReq.stmts rest) st

/-- The fuel-driven interpreter: one unit of fuel per visitor layer. -/
def interpGo : Nat → (r : IReq) → IState → Except RunErr (IOut r)
  | 0, _, _ => Except.error RunErr.outOfFuel
  | fuel + 1, r, st => interpStep (interpGo fuel) r st

/-- Interpreter.evaluate. -/
def evalExpr (fuel : Nat) (st : IState) (e : PExpr) :
    Except RunErr (Value × IState) :=
  interpGo fuel (IReq.expr e) st

/-- Interpreter.execute. -/
def execStmt (fuel : Nat) (st : IState) (s : PStmt) : Except RunErr IState :=
  interpGo fuel (IReq.stmt s) st

/-- Interpreter.interpret over a statement list. -/
def execStmts (fuel : Nat) (st : IState) (ss : List PStmt) :
    Except RunErr IState :=
  interpGo fuel (IReq.stmts ss) st

/-! ## Definitions supporting the claim statements -/

/-- An identifier token as the tokenizer produces it. -/
def identTok (s : String) : Token :=
  { kind := TokenKind.IDENTIFIER, line := 1, text := s, value := Value.str s }

/-- A return-keyword token as the tokenizer produces it. -/
def retTok : Token :=
  { kind := TokenKind.RETURN, line := 1, text := "return", value := Value.str "return" }

/-- An int-type-keyword token as the tokenizer produces it. -/
def intTypeTok : Token :=
  { kind := TokenKind.INT, line := 1, text := "int", value := Value.str "int" }

/-- def f() -> int with body return 1; return 2 (two return statements in
sequence inside the function body). -/
def fTwoReturns : PStmt :=
  PStmt.FunctionStmt (identTok "f") [] intTypeTok
    (PStmt.BlockStmt
      [ PStmt.ReturnStmt retTok (some (PExpr.Literal (Value.int 1))),
        PStmt.ReturnStmt retTok (some (PExpr.Literal (Value.int 2))) ])

/-- def g() -> int with body return 1; print(99). -/
def gReturnThenPrint : PStmt :=
  PStmt.FunctionStmt (identTok "g") [] intTypeTok
    (PStmt.BlockStmt
      [ PStmt.ReturnStmt retTok (some (PExpr.Literal (Value.int 1))),
        PStmt.PrintStmt (PExpr.Literal (Value.int 99)) ])

/-- Declare fTwoReturns and evaluate the call f(): the call's result. -/
def callFTwoReturns : Except RunErr Value :=
  Except.map (fun p => p.1)
    (Except.bind (execStmt 32 initState fTwoReturns)
      (fun st => evalExpr 32 st (PExpr.CallExpr (identTok "f") [])))

/-- Declare gReturnThenPrint and evaluate the call g(): the call's result
together with everything printed. -/
def callGReturnThenPrint : Except RunErr (Value × List String) :=
  Except.map (fun p => (p.1, p.2.output))
    (Except.bind (execStmt 32 initState gReturnThenPrint)
      (fun st => evalExpr 32 st (PExpr.CallExpr (identTok "g") [])))

/-- Whether a multiplicative parse result is left-nested, i.e. its left
child is itself a Binary node. -/
def leftNestedShape : PExpr → Bool
  | PExpr.BinaryExpr (PExpr.BinaryExpr _ _ _) _ _ => true
  | _ => false

/-- The components of a right-nested tree Binary(a, op1, Binary(b, op2, c))
over literals, if the expression has that shape. -/
def rightNestedShape : PExpr →
    Option (Value × TokenKind × Value × TokenKind × Value)
  | PExpr.BinaryExpr (PExpr.Literal a) op
      (PExpr.BinaryExpr (PExpr.Literal b) op2 (PExpr.Literal c)) =>
    some (a, op.kind, b, op2.kind, c)
  | _ => Option.none

/-- The token list that tokenize produces for the source 2 * 3 / 4. -/
def c4Toks : List Token :=
  [ { kind := TokenKind.INT, line := 1, text := "2", value := Value.int 2 },
    tk TokenKind.STAR 1 "*",
    { kind := TokenKind.INT, line := 1, text := "3", value := Value.int 3 },
    tk TokenKind.SLASH 1 "/",
    { kind := TokenKind.INT, line := 1, text := "4", value := Value.int 4 },
    tk TokenKind.NEWLINE 1 "\n",
    tk TokenKind.EOF 2 "" ]

/-- A token list for a op1 b op2 c (arbitrary INT literal values and
multiplicative operator kinds) followed by NEWLINE and EOF. -/
def c4T (a b c : Int) (k1 k2 : TokenKind) : List Token :=
  [ { kind := TokenKind.INT, line := 1, text := "2", value := Value.int a },
    tk k1 1 "*",
    { kind := TokenKind.INT, line := 1, text := "3", value := Value.int b },
    tk k2 1 "/",
    { kind := TokenKind.INT, line := 1, text := "4", value := Value.int c },
    tk TokenKind.NEWLINE 1 "\n",
    tk TokenKind.EOF 2 "" ]

/-- An interpreter state in which the declared variable x stores None (as
after x: int = f() for a function f that never executes a return). -/
def noneValuedState : IState :=
  { values := [("x", Value.none)], functions := [],
    returnValue := Value.none, output := [] }

/-- The token list produced by tokenize on the blank indented line. -/
def c9WitToks : List Token :=
  [tk TokenKind.INDENT 1 "    ", tk TokenKind.NEWLINE 1 "\n",
   tk TokenKind.DEDENT 2 "", tk TokenKind.EOF 2 ""]

/-- The number of INDENT tokens in a list. -/
def countIndent (ts : List Token) : Nat :=
  ts.countP (fun t => t.kind = TokenKind.INDENT)

/-- The number of DEDENT tokens in a list. -/
def countDedent (ts : List Token) : Nat :=
  ts.countP (fun t => t.kind = TokenKind.DEDENT)

/-- In every prefix, DEDENTs do not outnumber INDENTs. -/
def BalancedPrefixes (ts : List Token) : Prop :=
  ∀ n, countDedent (ts.take n) ≤ countIndent (ts.take n)

/-- The indent stack is strictly decreasing from its top (head) and ends
in the bottom level 0; this is invariant under tokenization. -/
def StackOK (stack : List Nat) : Prop :=
  List.Chain' (fun a b => b < a) stack ∧ stack.getLast? = some 0

/-- The input buffer is nonempty and its final character is a newline; the
Tokenizer constructor establishes this and every scanner preserves it. -/
def EndsNL (l : List Char) : Prop :=
  l ≠ [] ∧ l.getLast? = some '\n'

/-! ## Theorems -/

/-- C1: the claim states that once a Return statement in a called function
body has executed, no further statement of that body executes and the
returned value becomes the call's result.  The code (visit_return_stmt)
only sets the return_value register and visit_block_stmt keeps executing:
with body return 1; return 2 the call yields 2 (not 1), and with body
return 1; print(99) the print still runs (output 99) while the call yields
the register value 1.  This theorem evaluates the embedded interpreter at
those failing inputs, exhibiting the divergence the claim (and section 9 of
the spec, which calls the literal behavior a defect) describes. -/
theorem c1_return_does_not_abort :
    callFTwoReturns = Except.ok (Value.int 2) ∧
    callGReturnThenPrint = Except.ok (Value.int 1, ["99"]) := by
  exact ⟨rfl, rfl⟩

/-- C2: the claim states the full pipeline on the Scenario D source
succeeds and prints 5, comma-separated parameter and argument lists being
accepted.  The tokenizer has no case for the comma character (and the
TokenKind enum has no COMMA member, though the parser mentions one), so
tokenize raises on the first comma of the parameter list and the pipeline
never reaches evaluation. -/
theorem c2_scenario_d_tokenize_fails :
    tokenize "def add(a: int, b: int) -> int:\n    return a + b\nprint(add(2, 3))" =
      Except.error (LexErr.didNotHandle ',') := by
  rfl

/-- C3: the claim states the full pipeline on the Scenario B source
succeeds and prints 1, the comparison operators parsing at the comparison
level.  Tokenization succeeds, but Parser.comparison evaluates
TokenKind.GREATER, which is not a member of the TokenKind enum, so parsing
any expression raises AttributeError and the pipeline fails on this
source. -/
theorem c3_scenario_b_parse_fails :
    parse "if 1 < 2:\n    print(1)\nelse:\n    print(0)" =
      Except.error (TpErr.parseErr (ParseErr.attributeError "GREATER")) := by
  rfl

/-- C4 counterexample: on the tokens of 2 * 3 / 4 the multiplicative level
(Parser.factor) does not produce the left-nested tree the claim states: the
result is not left-nested, and is exactly the right-nested tree
Binary(2, *, Binary(3, /, 4)). -/
theorem c4_counterexample :
    tokenize "2 * 3 / 4" = Except.ok c4Toks ∧
    Except.map (fun p => leftNestedShape p.1)
      (factorP 32 { position := 0, tokens := c4Toks }) = Except.ok false ∧
    Except.map (fun p => rightNestedShape p.1)
      (factorP 32 { position := 0, tokens := c4Toks }) =
      Except.ok (some (Value.int 2, TokenKind.STAR, Value.int 3,
        TokenKind.SLASH, Value.int 4)) := by
  exact ⟨rfl, rfl, rfl⟩

/-- The do-bind of Except on a successful first component. -/
lemma bindOk {ε α β : Type} (x : α) (f : α → Except ε β) :
    (do
      let y ← (Except.ok x : Except ε α)
      f y) = f x := rfl

/-- pure of the Except monad. -/
lemma pureOk {ε α : Type} (x : α) : (pure x : Except ε α) = Except.ok x := rfl

/-- Parser.call_expr on the a op1 b op2 c token list at each literal
position parses exactly that literal and stops in front of the following
operator (or newline). -/
lemma callExprP_c4T (a b c : Int) (k1 k2 : TokenKind) (p q : Nat) (v : Int)
    (hk1 : k1 = TokenKind.STAR ∨ k1 = TokenKind.SLASH)
    (hk2 : k2 = TokenKind.STAR ∨ k2 = TokenKind.SLASH)
    (hp : (p = 0 ∧ q = 1 ∧ v = a) ∨ (p = 2 ∧ q = 3 ∧ v = b) ∨
      (p = 4 ∧ q = 5 ∧ v = c))
    (g : Nat) (hg : 2 ≤ g) :
    parseGo g PReq.callExpr ⟨p, c4T a b c k1 k2⟩ =
      Except.ok (PExpr.Literal (Value.int v), ⟨q, c4T a b c k1 k2⟩) := by
  obtain ⟨d, rfl⟩ : ∃ d, g = d + 2 := ⟨g - 2, by omega⟩
  rcases hk1 with rfl | rfl <;> rcases hk2 with rfl | rfl <;>
    rcases hp with ⟨rfl, rfl, rfl⟩ | ⟨rfl, rfl, rfl⟩ | ⟨rfl, rfl, rfl⟩ <;> rfl

/-- C4 amended: the multiplicative level is right-associative: for every
a op1 b op2 c with op1, op2 each * or /, Parser.factor produces the
right-nested tree Binary(a, op1, Binary(b, op2, c)) (its loop parses the
right operand with a recursive call to factor itself), so evaluation
applies op2 to b and c first. -/
theorem c4_amended (a b c : Int) (k1 k2 : TokenKind)
    (hk1 : k1 = TokenKind.STAR ∨ k1 = TokenKind.SLASH)
    (hk2 : k2 = TokenKind.STAR ∨ k2 = TokenKind.SLASH) :
    factorP 32 ⟨0, c4T a b c k1 k2⟩ =
      Except.ok (PExpr.BinaryExpr (PExpr.Literal (Value.int a)) (tk k1 1 "*")
        (PExpr.BinaryExpr (PExpr.Literal (Value.int b)) (tk k2 1 "/")
          (PExpr.Literal (Value.int c))), ⟨5, c4T a b c k1 k2⟩) := by
  have hC0 := callExprP_c4T a b c k1 k2 0 1 a hk1 hk2
    (Or.inl ⟨rfl, rfl, rfl⟩) 31 (by omega)
  have hC2 := callExprP_c4T a b c k1 k2 2 3 b hk1 hk2
    (Or.inr (Or.inl ⟨rfl, rfl, rfl⟩)) 29 (by omega)
  have hC4 := callExprP_c4T a b c k1 k2 4 5 c hk1 hk2
    (Or.inr (Or.inr ⟨rfl, rfl, rfl⟩)) 27 (by omega)
  have hM1 : matchT [TokenKind.STAR, TokenKind.SLASH] ⟨1, c4T a b c k1 k2⟩ =
      Except.ok (true, ⟨2, c4T a b c k1 k2⟩) := by
    rcases hk1 with rfl | rfl <;> rfl
  have hM3 : matchT [TokenKind.STAR, TokenKind.SLASH] ⟨3, c4T a b c k1 k2⟩ =
      Except.ok (true, ⟨4, c4T a b c k1 k2⟩) := by
    rcases hk2 with rfl | rfl <;> rfl
  have hM5 : matchT [TokenKind.STAR, TokenKind.SLASH] ⟨5, c4T a b c k1 k2⟩ =
      Except.ok (false, ⟨5, c4T a b c k1 k2⟩) := rfl
  have hP2 : previousT ⟨2, c4T a b c k1 k2⟩ = Except.ok (tk k1 1 "*") := rfl
  have hP4 : previousT ⟨4, c4T a b c k1 k2⟩ = Except.ok (tk k2 1 "/") := rfl
  simp only [c4T] at hC0 hC2 hC4 hM1 hM3 hM5 hP2 hP4 ⊢
  rw [factorP]
  conv_lhs => rw [parseGo.eq_2]
  simp only [parseStep, hC0, hC2, hC4, hM1, hM3, hM5, hP2, hP4, bindOk, pureOk,
    reduceIte, Bool.false_eq_true, eq_self_iff_true, if_true, if_false]
  conv_lhs => rw [parseGo.eq_2]
  simp only [parseStep, hC0, hC2, hC4, hM1, hM3, hM5, hP2, hP4, bindOk, pureOk,
    reduceIte, Bool.false_eq_true, eq_self_iff_true, if_true, if_false]
  conv_lhs => rw [parseGo.eq_2]
  simp only [parseStep, hC0, hC2, hC4, hM1, hM3, hM5, hP2, hP4, bindOk, pureOk,
    reduceIte, Bool.false_eq_true, eq_self_iff_true, if_true, if_false]
  conv_lhs => rw [parseGo.eq_2]
  simp only [parseStep, hC0, hC2, hC4, hM1, hM3, hM5, hP2, hP4, bindOk, pureOk,
    reduceIte, Bool.false_eq_true, eq_self_iff_true, if_true, if_false]
  conv_lhs => rw [parseGo.eq_2]
  simp only [parseStep, hC0, hC2, hC4, hM1, hM3, hM5, hP2, hP4, bindOk, pureOk,
    reduceIte, Bool.false_eq_true, eq_self_iff_true, if_true, if_false]
  conv_lhs => rw [parseGo.eq_2]
  simp only [parseStep, hC0, hC2, hC4, hM1, hM3, hM5, hP2, hP4, bindOk, pureOk,
    reduceIte, Bool.false_eq_true, eq_self_iff_true, if_true, if_false]
  conv_lhs => rw [parseGo.eq_2]
  simp only [parseStep, hC0, hC2, hC4, hM1, hM3, hM5, hP2, hP4, bindOk, pureOk,
    reduceIte, Bool.false_eq_true, eq_self_iff_true, if_true, if_false]
  conv_lhs => rw [parseGo.eq_2]
  simp only [parseStep, hC0, hC2, hC4, hM1, hM3, hM5, hP2, hP4, bindOk, pureOk,
    reduceIte, Bool.false_eq_true, eq_self_iff_true, if_true, if_false]

/-- Witness for c4_amended at a = 2, b = 3, c = 4, op1 = *, op2 = /. -/
theorem c4_amended_witness :
    (TokenKind.STAR = TokenKind.STAR ∨ TokenKind.STAR = TokenKind.SLASH) ∧
    (TokenKind.SLASH = TokenKind.STAR ∨ TokenKind.SLASH = TokenKind.SLASH) ∧
    factorP 32 ⟨0, c4T 2 3 4 TokenKind.STAR TokenKind.SLASH⟩ =
      Except.ok (PExpr.BinaryExpr (PExpr.Literal (Value.int 2))
        (tk TokenKind.STAR 1 "*")
        (PExpr.BinaryExpr (PExpr.Literal (Value.int 3))
          (tk TokenKind.SLASH 1 "/") (PExpr.Literal (Value.int 4))),
        ⟨5, c4T 2 3 4 TokenKind.STAR TokenKind.SLASH⟩) :=
  ⟨Or.inl rfl, Or.inr rfl,
    c4_amended 2 3 4 TokenKind.STAR TokenKind.SLASH (Or.inl rfl) (Or.inr rfl)⟩

/-- C5: for a Binary expression whose operator is -, * or /, if either
evaluated operand is a string then evaluation fails with the host type
error: visit_binary_expr coerces both operands to text and the subsequent
string arithmetic raises TypeError, so no value (coerced or otherwise) is
ever produced. -/
theorem c5_str_operand_arith_fails (op : Token) (l r : Value) (st : IState)
    (hk : op.kind = TokenKind.MINUS ∨ op.kind = TokenKind.STAR ∨
      op.kind = TokenKind.SLASH)
    (hs : isStrV l = true ∨ isStrV r = true) :
    evalExpr 3 st (PExpr.BinaryExpr (PExpr.Literal l) op (PExpr.Literal r)) =
      Except.error RunErr.typeError := by
  obtain ⟨k, ln, tx, v⟩ := op
  simp only at hk
  rcases hk with rfl | rfl | rfl <;> cases l <;> cases r <;>
    first
      | rfl
      | (exfalso; rcases hs with h | h <;> simp [isStrV] at h)

/-- Witness for c5_str_operand_arith_fails at 5 - "a". -/
theorem c5_witness :
    ((tk TokenKind.MINUS 1 "-").kind = TokenKind.MINUS ∨
      (tk TokenKind.MINUS 1 "-").kind = TokenKind.STAR ∨
      (tk TokenKind.MINUS 1 "-").kind = TokenKind.SLASH) ∧
    (isStrV (Value.int 5) = true ∨ isStrV (Value.str "a") = true) ∧
    evalExpr 3 initState (PExpr.BinaryExpr (PExpr.Literal (Value.int 5))
      (tk TokenKind.MINUS 1 "-") (PExpr.Literal (Value.str "a"))) =
      Except.error RunErr.typeError :=
  ⟨Or.inl rfl, Or.inr rfl,
    c5_str_operand_arith_fails (tk TokenKind.MINUS 1 "-") (Value.int 5)
      (Value.str "a") initState (Or.inl rfl) (Or.inr rfl)⟩

/-- C6 counterexample: the claim states a whitespace-only line contributes
no tokens at all (no NEWLINE, INDENT or DEDENT) and leaves the indentation
stack unchanged.  On the source consisting of one whitespace-only line,
tokenize emits INDENT, NEWLINE and DEDENT tokens (the DEDENT coming from
the stack having been pushed by that very line), not merely the EOF token
the claim would force. -/
theorem c6_counterexample :
    Except.map (List.map Token.kind) (tokenize "    \n") =
      Except.ok [TokenKind.INDENT, TokenKind.NEWLINE, TokenKind.DEDENT,
        TokenKind.EOF] ∧
    [TokenKind.INDENT, TokenKind.NEWLINE, TokenKind.DEDENT, TokenKind.EOF] ≠
      [TokenKind.EOF] := by
  exact ⟨rfl, by decide⟩

/-- The kind field of a token built by the tk shorthand. -/
lemma tk_kind (k : TokenKind) (l : Int) (t : String) : (tk k l t).kind = k := rfl

/-- skip_spaces consumes exactly the leading run of spaces. -/
lemma skipSpaces_rep (n : Nat) :
    skipSpaces (List.replicate n ' ' ++ ['\n']) = (n, ['\n']) := by
  induction n with
  | zero => rfl
  | succ m ih => simp [List.replicate_succ, skipSpaces, ih]

/-- First iteration on a line of 4(k+1) spaces: the whitespace handler
pushes level k+1 and emits INDENT, then the newline emits NEWLINE. -/
lemma lexStep_blank1 (k : Nat) :
    lexStep 1 [] [0] (List.replicate (4 * (k + 1)) ' ' ++ ['\n']) =
      StepRes.next 2
        [tk TokenKind.INDENT 1 (mkSpaces (4 * (k + 1))), tk TokenKind.NEWLINE 1 "\n"]
        [k + 1, 0] [] := by
  have hdiv : 4 * (k + 1) / INDENT_SPACES = k + 1 := by
    simp [INDENT_SPACES]
  have hmod : 4 * (k + 1) % INDENT_SPACES = 0 := by
    simp [INDENT_SPACES]
  have hgt : k + 1 > 0 := Nat.succ_pos k
  simp [lexStep, scanTok, whitespace, skipSpaces_rep, peekc, hdiv, hmod, lastKind, hgt, tk]

/-- Second iteration: at end of input after the NEWLINE, the whitespace
handler dedents back to level 0 (one DEDENT, since the push recorded k+1
directly), then the loop breaks and appends EOF. -/
lemma lexStep_blank2 (k : Nat) :
    lexStep 2
        [tk TokenKind.INDENT 1 (mkSpaces (4 * (k + 1))), tk TokenKind.NEWLINE 1 "\n"]
        [k + 1, 0] [] =
      StepRes.done
        [tk TokenKind.INDENT 1 (mkSpaces (4 * (k + 1))), tk TokenKind.NEWLINE 1 "\n",
         tk TokenKind.DEDENT 2 (mkSpaces 0), tk TokenKind.EOF 2 ""] := by
  have hlt : (0 : Nat) < k + 1 := Nat.succ_pos k
  have hd : dedentLoop 2 (mkSpaces 0) 0 [k + 1, 0]
      [tk TokenKind.INDENT 1 (mkSpaces (4 * (k + 1))), tk TokenKind.NEWLINE 1 "\n"] =
      Except.ok ([0],
        [tk TokenKind.INDENT 1 (mkSpaces (4 * (k + 1))), tk TokenKind.NEWLINE 1 "\n",
         tk TokenKind.DEDENT 2 (mkSpaces 0)]) := by
    rw [dedentLoop.eq_def]
    simp only [if_pos hlt]
    rfl
  simp [lexStep, scanTok, whitespace, skipSpaces, peekc, lastKind, tk_kind, hd, hlt,
    INDENT_SPACES]

/-- C6 amended: a line of only whitespace is treated like any logical
line: for a source consisting of 4k spaces and a newline, a positive k
yields INDENT, NEWLINE, DEDENT, EOF (the blank line changes the indent
stack and emits indentation tokens plus its NEWLINE), and only k = 0
yields just NEWLINE, EOF. -/
theorem c6_amended (k : Nat) :
    Except.map (List.map Token.kind) (tokenize (mkSpaces (4 * k) ++ "\n")) =
      Except.ok
        (if k = 0 then [TokenKind.NEWLINE, TokenKind.EOF]
         else [TokenKind.INDENT, TokenKind.NEWLINE, TokenKind.DEDENT,
           TokenKind.EOF]) := by
  match k with
  | 0 => rfl
  | k + 1 =>
    have hdata : (mkSpaces (4 * (k + 1)) ++ "\n").data =
        List.replicate (4 * (k + 1)) ' ' ++ ['\n'] := by
      simp [mkSpaces, String.data_append]
    have hlast : (List.replicate (4 * (k + 1)) ' ' ++ ['\n']).getLast? =
        some '\n' := List.getLast?_concat _
    have hlen : (List.replicate (4 * (k + 1)) ' ' ++ ['\n']).length =
        4 * (k + 1) + 1 := by
      simp
    simp only [tokenize, hdata, hlast, reduceIte, hlen, Nat.succ_ne_zero,
      if_false]
    rw [lexLoop, lexStep_blank1]
    simp only [lexLoop, lexStep_blank2]
    rfl

/-- C7 counterexample: the claim states that when a dedent level is not
present on the indentation stack, tokenization fails with a LexError.  On
this source the third line dedents to level 1 while the stack is [0, 2]
(level 1 is absent), yet tokenize succeeds, emitting a single DEDENT and
carrying on with stack top 0. -/
theorem c7_counterexample :
    Except.map (List.map Token.kind) (tokenize "a:\n        b\n    c\n") =
      Except.ok [TokenKind.IDENTIFIER, TokenKind.COLON, TokenKind.NEWLINE,
        TokenKind.INDENT, TokenKind.IDENTIFIER, TokenKind.NEWLINE,
        TokenKind.DEDENT, TokenKind.IDENTIFIER, TokenKind.NEWLINE,
        TokenKind.EOF] := by
  rfl

/-- C7 amended: when a logical line's indentation level is below the stack
top, the lexer pops and emits exactly one DEDENT per pop while the level is
still below the top, stopping as soon as the top is less than or equal to
the new level; when the level is not present on the stack no error is
raised — lexing simply continues with the nearest lower level on top. -/
theorem c7_amended (line : Int) (txt : String) (lvl : Nat) (stack : List Nat)
    (toks : List Token) (hchain : List.Chain' (fun a b => b < a) stack)
    (hlast : stack.getLast? = some 0) :
    ∃ k, k < stack.length ∧
      dedentLoop line txt lvl stack toks =
        Except.ok (stack.drop k,
          toks ++ List.replicate k (tk TokenKind.DEDENT line txt)) ∧
      (∀ top, (stack.drop k).head? = some top → top ≤ lvl) := by
  induction stack generalizing toks with
  | nil => simp at hlast
  | cons cur rest ih =>
    by_cases hlt : lvl < cur
    · match rest with
      | [] =>
        simp at hlast
        omega
      | t :: r2 =>
        have hchain2 : List.Chain' (fun a b => b < a) (t :: r2) :=
          (List.chain'_cons.mp hchain).2
        have hlast2 : (t :: r2).getLast? = some 0 := by
          simpa [List.getLast?] using hlast
        obtain ⟨k, hk, heq, hstop⟩ :=
          ih (toks ++ [tk TokenKind.DEDENT line txt]) hchain2 hlast2
        refine ⟨k + 1, by simpa using Nat.succ_lt_succ hk, ?_, ?_⟩
        · rw [dedentLoop.eq_def]
          simp only [if_pos hlt, heq]
          simp [List.replicate_succ]
        · simpa using hstop
    · refine ⟨0, by simp, ?_, ?_⟩
      · rw [dedentLoop.eq_def]
        simp only [if_neg hlt]
        simp
      · intro top htop
        simp at htop
        omega

/-- Witness for c7_amended: dedent to level 1 over stack [2, 0]. -/
theorem c7_amended_witness :
    List.Chain' (fun a b => b < a) [2, 0] ∧ [2, 0].getLast? = some 0 ∧
    ∃ k, k < ([2, 0] : List Nat).length ∧
      dedentLoop 1 "    " 1 [2, 0] [] =
        Except.ok (([2, 0] : List Nat).drop k,
          [] ++ List.replicate k (tk TokenKind.DEDENT 1 "    ")) ∧
      (∀ top, (([2, 0] : List Nat).drop k).head? = some top → top ≤ 1) :=
  ⟨by simp [List.chain'_cons], by simp,
    c7_amended 1 "    " 1 [2, 0] [] (by simp [List.chain'_cons]) (by simp)⟩

/-- C8 counterexample: the claim states that reaching end of input inside
a string literal makes tokenize fail with a LexError rather than reading
past the end of the source buffer.  On an unterminated string the scan in
fact runs past the final newline and the unguarded advance reads past the
end of the buffer, so the failure is the host IndexError, not one of the
exceptions the tokenizer raises. -/
theorem c8_counterexample :
    tokenize "\"abc\n" = Except.error LexErr.indexError ∧
    LexErr.isRaisedLexError LexErr.indexError = false := by
  exact ⟨rfl, rfl⟩

/-- Scanning a string literal whose remainder never contains a closing
quote walks off the end of the character buffer: the IndexError of the
host, not a raised LexError. -/
lemma strScan_no_quote (l : List Char) (h : '"' ∉ l) :
    strScan l = Except.error LexErr.indexError := by
  induction l with
  | nil => rfl
  | cons c rest ih =>
    have hc : ¬ c = '"' := fun hc => h (by simp [hc])
    have hr : '"' ∉ rest := fun hm => h (List.mem_cons_of_mem c hm)
    simp only [strScan, if_neg hc, ih hr]

/-- skip_spaces leaves a buffer alone when its first character is not a
space. -/
lemma skipSpaces_cons_not_space (c : Char) (l : List Char) (hc : ¬ c = ' ') :
    skipSpaces (c :: l) = (0, c :: l) := by
  simp only [skipSpaces, if_neg hc]

/-- The whitespace handler at the start of the source does nothing when the
line starts with a double quote. -/
lemma whitespace_quote (line : Int) (rest : List Char) :
    whitespace line [] [0] ('"' :: rest) = Except.ok ([], [0], '"' :: rest) := by
  simp [whitespace, skipSpaces_cons_not_space '"' rest (by decide), peekc]

/-- One step of the main lexer loop on a source that opens with an
unterminated string literal reads past the end of the buffer. -/
lemma lexStep_quote (line : Int) (rest : List Char) (h : '"' ∉ rest) :
    lexStep line [] [0] ('"' :: rest) = StepRes.err LexErr.indexError := by
  simp [lexStep, scanTok, whitespace_quote, strScan_no_quote rest h, tk]

/-- C8 amended: on any source that starts with a double quote and contains
no further double quote, the string scan runs past the end of the buffer
and tokenize fails with the host IndexError rather than one of the
LexError exceptions the tokenizer itself raises. -/
theorem c8_amended (s : String) (h : '"' ∉ s.data) :
    tokenize ("\"" ++ s) = Except.error LexErr.indexError := by
  have hdata : ("\"" ++ s).data = '"' :: s.data := by
    simp [String.data_append]
  rcases List.eq_nil_or_concat s.data with hs | ⟨l2, a, hs⟩
  · simp only [tokenize, hdata, hs]
    rfl
  · rw [List.concat_eq_append] at hs
    have hq2 : '"' ∉ l2 ++ [a] := by rw [← hs]; exact h
    have hlast2 : ('"' :: (l2 ++ [a])).getLast? = some a := by
      rw [← List.cons_append]
      exact List.getLast?_concat _
    simp only [tokenize, hdata, hs, hlast2]
    by_cases ha : a = '\n'
    · subst ha
      simp only [reduceIte]
      have hrest : '"' ∉ l2 ++ ['\n'] := hq2
      rw [lexLoop, lexStep_quote _ _ hrest]
    · simp only [if_neg ha]
      have hrest : '"' ∉ (l2 ++ [a]) ++ ['\n'] := by
        intro hm
        rcases List.mem_append.mp hm with hm | hm
        · exact hq2 hm
        · simp at hm
      rw [List.cons_append, lexLoop, lexStep_quote _ _ hrest]

/-- Witness for c8_amended: the unterminated string source from the
counterexample. -/
theorem c8_amended_witness :
    '"' ∉ ("abc\n" : String).data ∧
    tokenize ("\"" ++ "abc\n") = Except.error LexErr.indexError :=
  ⟨by decide, c8_amended "abc\n" (by decide)⟩

/-- C10: when a declared variable's stored value is None, both reading the
variable (visit_var) and assigning to it (visit_assign_stmt) fail with the
undefined-variable error, because dict.get cannot distinguish a stored
None from an absent key and both visitors treat None as undefined; the
assignment fails before its right-hand side is even evaluated. -/
theorem c10_none_value_reads_as_undefined (st : IState) (nameTok : Token)
    (name : String) (e : PExpr) (hkey : tokenKey nameTok = name)
    (h : pyDictGet st.values name = some Value.none) :
    evalExpr 5 st (PExpr.Var nameTok) =
      Except.error (RunErr.notDefined name) ∧
    execStmt 5 st (PStmt.AssignStmt nameTok e) =
      Except.error (RunErr.notDefined name) := by
  constructor
  · simp only [evalExpr, interpGo, interpStep, hkey, h, Option.getD, if_true]
  · simp only [execStmt, interpGo, interpStep, hkey, h, Option.getD, if_true]

/-- Witness for c10_none_value_reads_as_undefined: x declared with stored
value None. -/
theorem c10_witness :
    tokenKey (identTok "x") = "x" ∧
    pyDictGet noneValuedState.values "x" = some Value.none ∧
    (evalExpr 5 noneValuedState (PExpr.Var (identTok "x")) =
      Except.error (RunErr.notDefined "x") ∧
    execStmt 5 noneValuedState
      (PStmt.AssignStmt (identTok "x") (PExpr.Literal (Value.int 1))) =
      Except.error (RunErr.notDefined "x")) :=
  ⟨rfl, rfl,
    c10_none_value_reads_as_undefined _ (identTok "x") "x"
      (PExpr.Literal (Value.int 1)) rfl rfl⟩


lemma endsNL_rest {c : Char} {r : List Char} (h : EndsNL (c :: r)) :
    (r = [] ∧ c = '\n') ∨ EndsNL r := by
  cases r with
  | nil =>
    left
    refine ⟨rfl, ?_⟩
    have := h.2
    simp [List.getLast?] at this
    exact this
  | cons d t =>
    right
    refine ⟨List.cons_ne_nil d t, ?_⟩
    have := h.2
    rwa [List.getLast?_cons_cons] at this

lemma endsNL_tail {c : Char} {r : List Char} (h : EndsNL (c :: r))
    (hc : ¬ c = '\n') : EndsNL r := by
  rcases endsNL_rest h with ⟨_, hcn⟩ | h2
  · exact absurd hcn hc
  · exact h2

lemma skipSpaces_ends (l : List Char) (h : EndsNL l) :
    EndsNL (skipSpaces l).2 := by
  induction l with
  | nil => exact absurd rfl h.1
  | cons c rest ih =>
    by_cases hc : c = ' '
    · have hr : EndsNL rest := endsNL_tail h (by rw [hc]; decide)
      have := ih hr
      rcases hsr : skipSpaces rest with ⟨n, r2⟩
      rw [hsr] at this
      simp only [skipSpaces, if_pos hc, hsr]
      exact this
    · simp only [skipSpaces, if_neg hc]
      exact h

lemma digitsScan_ends (l : List Char) (h : EndsNL l) :
    EndsNL (digitsScan l).2 := by
  induction l with
  | nil => exact absurd rfl h.1
  | cons c rest ih =>
    by_cases hc : c.isDigit
    · have hr : EndsNL rest := endsNL_tail h (by
        intro he
        rw [he] at hc
        exact absurd hc (by decide))
      have := ih hr
      rcases hsr : digitsScan rest with ⟨ds, r2⟩
      rw [hsr] at this
      simp only [digitsScan, if_pos hc, hsr]
      exact this
    · simp only [digitsScan, if_neg hc]
      exact h

lemma identScan_ends (l : List Char) (h : EndsNL l) :
    EndsNL (identScan l).2 := by
  induction l with
  | nil => exact absurd rfl h.1
  | cons c rest ih =>
    by_cases hc : (c.isAlpha ∨ c = '_')
    · have hr : EndsNL rest := endsNL_tail h (by
        intro he
        rw [he] at hc
        rcases hc with h1 | h1 <;> exact absurd h1 (by decide))
      have := ih hr
      rcases hsr : identScan rest with ⟨ds, r2⟩
      rw [hsr] at this
      simp only [identScan, if_pos hc, hsr]
      exact this
    · simp only [identScan, if_neg hc]
      exact h

lemma commentScan_ends (l : List Char) (h : EndsNL l) :
    EndsNL (commentScan l).2 := by
  induction l with
  | nil => exact absurd rfl h.1
  | cons c rest ih =>
    by_cases hc : c = '\n'
    · simp only [commentScan, if_pos hc]
      exact h
    · have hr : EndsNL rest := endsNL_tail h hc
      have := ih hr
      rcases hsr : commentScan rest with ⟨ds, r2⟩
      rw [hsr] at this
      simp only [commentScan, if_neg hc, hsr]
      exact this

lemma strScan_ends (l : List Char) : ∀ (s r : List Char),
    strScan l = Except.ok (s, r) → EndsNL l → EndsNL r := by
  induction l with
  | nil => intro s r h _; simp [strScan] at h
  | cons c rest ih =>
    intro s r h hE
    by_cases hc : c = '"'
    · rw [strScan, if_pos hc] at h
      cases h
      exact endsNL_tail hE (by rw [hc]; decide)
    · rw [strScan, if_neg hc] at h
      rcases hsr : strScan rest with e | ⟨⟨s2, r2⟩⟩ <;> rw [hsr] at h
      · cases h
      · cases h
        have hrest : rest ≠ [] := by
          intro hnil
          rw [hnil] at hsr
          simp [strScan] at hsr
        have hEr : EndsNL rest := by
          rcases endsNL_rest hE with ⟨hnil, _⟩ | h2
          · exact absurd hnil hrest
          · exact h2
        exact ih _ _ hsr hEr

lemma matchChar_ends (e : Char) (he : ¬ e = '\n') (l : List Char)
    (hE : EndsNL l) : EndsNL (matchChar e l).2 := by
  cases l with
  | nil => exact absurd rfl hE.1
  | cons c r =>
    by_cases hc : c = e
    · simp only [matchChar, if_pos hc]
      exact endsNL_tail hE (by rw [hc]; exact he)
    · simp only [matchChar, if_neg hc]
      exact hE

lemma countIndent_append (t1 t2 : List Token) :
    countIndent (t1 ++ t2) = countIndent t1 + countIndent t2 :=
  List.countP_append _ _ _

lemma countDedent_append (t1 t2 : List Token) :
    countDedent (t1 ++ t2) = countDedent t1 + countDedent t2 :=
  List.countP_append _ _ _

lemma countIndent_single_ne (tok : Token) (h : ¬ tok.kind = TokenKind.INDENT) :
    countIndent [tok] = 0 := by
  simp [countIndent, h]

lemma countDedent_single_ne (tok : Token) (h : ¬ tok.kind = TokenKind.DEDENT) :
    countDedent [tok] = 0 := by
  simp [countDedent, h]

lemma countIndent_single_eq (tok : Token) (h : tok.kind = TokenKind.INDENT) :
    countIndent [tok] = 1 := by
  simp [countIndent, h]

lemma countDedent_single_eq (tok : Token) (h : tok.kind = TokenKind.DEDENT) :
    countDedent [tok] = 1 := by
  simp [countDedent, h]

lemma balanced_total (t : List Token) (hB : BalancedPrefixes t) :
    countDedent t ≤ countIndent t := by
  have := hB t.length
  rwa [List.take_length] at this

lemma balanced_append (t : List Token) (u : List Token)
    (hB : BalancedPrefixes t)
    (h : ∀ n, countDedent (t ++ u.take n) ≤ countIndent (t ++ u.take n)) :
    BalancedPrefixes (t ++ u) := by
  intro n
  by_cases hn : n ≤ t.length
  · rw [List.take_append_of_le_length hn]
    exact hB n
  · have hsplit : (t ++ u).take n = t ++ u.take (n - t.length) := by
      rw [List.take_append_eq_append_take, List.take_of_length_le (by omega)]
    rw [hsplit]
    exact h (n - t.length)

lemma balanced_append_single (t : List Token) (tok : Token)
    (hB : BalancedPrefixes t)
    (h : countDedent (t ++ [tok]) ≤ countIndent (t ++ [tok])) :
    BalancedPrefixes (t ++ [tok]) := by
  apply balanced_append t [tok] hB
  intro n
  match n with
  | 0 =>
    simp only [List.take_zero, List.append_nil]
    exact balanced_total t hB
  | m + 1 =>
    have : [tok].take (m + 1) = [tok] := List.take_of_length_le (by simp)
    rw [this]
    exact h

lemma next_ok (toks : List Token) (tok : Token) (stack : List Nat)
    (hB : BalancedPrefixes toks)
    (hC : countDedent toks + stack.length = countIndent toks + 1)
    (hi : ¬ tok.kind = TokenKind.INDENT) (hd : ¬ tok.kind = TokenKind.DEDENT) :
    BalancedPrefixes (toks ++ [tok]) ∧
    countDedent (toks ++ [tok]) + stack.length = countIndent (toks ++ [tok]) + 1 := by
  have hI : countIndent (toks ++ [tok]) = countIndent toks := by
    rw [countIndent_append, countIndent_single_ne tok hi, Nat.add_zero]
  have hD : countDedent (toks ++ [tok]) = countDedent toks := by
    rw [countDedent_append, countDedent_single_ne tok hd, Nat.add_zero]
  constructor
  · apply balanced_append_single toks tok hB
    rw [hI, hD]
    exact balanced_total toks hB
  · rw [hI, hD]
    exact hC

lemma lastKind_append (t : List Token) (tok : Token) :
    lastKind (t ++ [tok]) = some tok.kind := by
  simp [lastKind, List.getLast?_concat]

lemma countIndent_replicate_dedent (k : Nat) (line : Int) (txt : String) :
    countIndent (List.replicate k (tk TokenKind.DEDENT line txt)) = 0 := by
  induction k with
  | zero => rfl
  | succ m ih => simp [List.replicate_succ, countIndent, List.countP_cons, tk] at ih ⊢

lemma countDedent_replicate_dedent (k : Nat) (line : Int) (txt : String) :
    countDedent (List.replicate k (tk TokenKind.DEDENT line txt)) = k := by
  induction k with
  | zero => rfl
  | succ m ih => simp [List.replicate_succ, countDedent, List.countP_cons, tk] at ih ⊢; exact ih

lemma balanced_append_dedents (t : List Token) (k : Nat) (line : Int) (txt : String)
    (hB : BalancedPrefixes t)
    (h : countDedent t + k ≤ countIndent t) :
    BalancedPrefixes (t ++ List.replicate k (tk TokenKind.DEDENT line txt)) := by
  apply balanced_append t _ hB
  intro n
  have htake : ∃ m, m ≤ k ∧
      (List.replicate k (tk TokenKind.DEDENT line txt)).take n =
        List.replicate m (tk TokenKind.DEDENT line txt) := by
    refine ⟨min n k, Nat.min_le_right n k, ?_⟩
    rw [List.take_replicate]
  obtain ⟨m, hm, hrepl⟩ := htake
  rw [hrepl, countDedent_append, countIndent_append,
    countIndent_replicate_dedent, countDedent_replicate_dedent]
  omega

lemma dedentLoop_spec (line : Int) (txt : String) (lvl : Nat) :
    ∀ (stack : List Nat) (toks : List Token) (stack2 : List Nat)
      (toks2 : List Token),
    dedentLoop line txt lvl stack toks = Except.ok (stack2, toks2) →
    ∃ k, k < stack.length ∧ stack2 = stack.drop k ∧
      toks2 = toks ++ List.replicate k (tk TokenKind.DEDENT line txt) ∧
      ∀ c, stack2.head? = some c → ¬ lvl < c := by
  intro stack
  induction stack with
  | nil =>
    intro toks stack2 toks2 h
    simp [dedentLoop] at h
  | cons cur rest ih =>
    intro toks stack2 toks2 h
    by_cases hlt : lvl < cur
    · rw [dedentLoop.eq_def] at h
      simp only [if_pos hlt] at h
      cases rest with
      | nil => simp at h
      | cons newTop rest2 =>
        obtain ⟨k, hk, hst, htk, hhd⟩ :=
          ih (toks ++ [tk TokenKind.DEDENT line txt]) stack2 toks2 h
        refine ⟨k + 1, by simpa using Nat.succ_lt_succ hk, ?_, ?_, hhd⟩
        · simpa using hst
        · rw [htk, List.append_assoc]
          congr 1
    · rw [dedentLoop.eq_def] at h
      simp only [if_neg hlt] at h
      cases h
      refine ⟨0, by simp, by simp, by simp, ?_⟩
      intro c hc
      simp at hc
      omega

lemma chain_lt_drop (k : Nat) :
    ∀ (s : List Nat), List.Chain' (fun a b => b < a) s →
      List.Chain' (fun a b => b < a) (s.drop k) := by
  induction k with
  | zero => intro s h; exact h
  | succ m ih =>
    intro s h
    cases s with
    | nil => simp
    | cons a t =>
      rw [List.drop_succ_cons]
      exact ih t (List.Chain'.tail h)

lemma getLast_drop {s : List Nat} {k : Nat} (hk : k < s.length) :
    (s.drop k).getLast? = s.getLast? := by
  induction k generalizing s with
  | zero => rfl
  | succ m ih =>
    cases s with
    | nil => simp at hk
    | cons a t =>
      rw [List.drop_succ_cons]
      have ht : t ≠ [] := by
        intro h
        rw [h] at hk
        simp at hk
      rw [ih (by simp at hk; omega)]
      cases t with
      | nil => exact absurd rfl ht
      | cons b t2 => rw [List.getLast?_cons_cons]

lemma stackOK_drop {s : List Nat} {k : Nat} (hS : StackOK s)
    (hk : k < s.length) : StackOK (s.drop k) :=
  ⟨chain_lt_drop k s hS.1, by rw [getLast_drop hk]; exact hS.2⟩

lemma stackOK_zero_top {s : List Nat} (hS : StackOK s)
    (h0 : ∀ c, s.head? = some c → ¬ 0 < c) : s = [0] := by
  cases s with
  | nil =>
    have := hS.2
    simp at this
  | cons a t =>
    have ha : a = 0 := by
      have := h0 a rfl
      omega
    subst ha
    cases t with
    | nil => rfl
    | cons b t2 =>
      have := hS.1
      rw [List.chain'_cons] at this
      omega

lemma whitespace_inv (line : Int) (toks : List Token) (stack : List Nat)
    (rest : List Char) (toks2 : List Token) (stack2 : List Nat)
    (rest2 : List Char)
    (hS : StackOK stack) (hB : BalancedPrefixes toks)
    (hC : countDedent toks + stack.length = countIndent toks + 1)
    (hw : whitespace line toks stack rest = Except.ok (toks2, stack2, rest2)) :
    StackOK stack2 ∧ BalancedPrefixes toks2 ∧
    countDedent toks2 + stack2.length = countIndent toks2 + 1 ∧
    rest2 = (skipSpaces rest).2 := by
  obtain ⟨current, stackRest, rfl⟩ : ∃ c t, stack = c :: t := by
    cases stack with
    | nil => simpa using hS.2
    | cons c t => exact ⟨c, t, rfl⟩
  rcases hsp : skipSpaces rest with ⟨spaces, rest1⟩
  simp only [whitespace, hsp] at hw
  by_cases htab : peekc rest1 = '\t'
  · rw [if_pos htab] at hw
    simp at hw
  rw [if_neg htab] at hw
  by_cases hmid : (¬ toks = [] ∧ ¬ lastKind toks = some TokenKind.NEWLINE)
  · rw [if_pos hmid] at hw
    cases hw
    exact ⟨hS, hB, hC, rfl⟩
  rw [if_neg hmid] at hw
  by_cases hrem : spaces % INDENT_SPACES ≠ 0
  · rw [if_pos hrem] at hw
    simp at hw
  rw [if_neg hrem] at hw
  by_cases hgt : spaces / INDENT_SPACES > current
  · rw [if_pos hgt] at hw
    cases hw
    refine ⟨?_, ?_, ?_, rfl⟩
    · constructor
      · rw [List.chain'_cons]
        exact ⟨hgt, hS.1⟩
      · rw [List.getLast?_cons_cons]
        exact hS.2
    · apply balanced_append_single toks _ hB
      rw [countIndent_append, countDedent_append,
        countIndent_single_eq _ (by rfl), countDedent_single_ne _ (by simp [tk])]
      have := balanced_total toks hB
      omega
    · rw [countIndent_append, countDedent_append,
        countIndent_single_eq _ (by rfl), countDedent_single_ne _ (by simp [tk])]
      simp only [List.length_cons] at hC ⊢
      omega
  · rw [if_neg hgt] at hw
    by_cases hlt : spaces / INDENT_SPACES < current
    · rw [if_pos hlt] at hw
      rcases hdd : dedentLoop line (mkSpaces spaces) (spaces / INDENT_SPACES)
          (current :: stackRest) toks with e | ⟨⟨stackD, toksD⟩⟩ <;>
        rw [hdd] at hw
      · simp at hw
      · cases hw
        obtain ⟨k, hk, hst, htk, hhd⟩ :=
          dedentLoop_spec line (mkSpaces spaces) (spaces / INDENT_SPACES)
            (current :: stackRest) toks _ _ hdd
        refine ⟨?_, ?_, ?_, rfl⟩
        · rw [hst]
          exact stackOK_drop hS hk
        · rw [htk]
          apply balanced_append_dedents toks k line (mkSpaces spaces) hB
          simp only [List.length_cons] at hC hk
          omega
        · rw [htk, hst, countIndent_append, countDedent_append,
            countIndent_replicate_dedent, countDedent_replicate_dedent,
            List.length_drop]
          simp only [List.length_cons] at hC hk ⊢
          omega
    · rw [if_neg hlt] at hw
      cases hw
      exact ⟨hS, hB, hC, rfl⟩

lemma lookup_mem_kw (l : List (String × TokenKind)) (s : String)
    (k : TokenKind) (h : l.lookup s = some k) : (s, k) ∈ l := by
  induction l with
  | nil => simp [List.lookup] at h
  | cons p t ih =>
    rcases p with ⟨a, b⟩
    rw [List.lookup] at h
    by_cases hs : s == a
    · rw [hs] at h
      cases h
      have : s = a := by simpa using hs
      subst this
      exact List.mem_cons_self _ _
    · rw [Bool.not_eq_true] at hs
      rw [hs] at h
      exact List.mem_cons_of_mem _ (ih h)

lemma keyword_kind_ne (s : String) :
    ¬ (KEYWORDS s).getD TokenKind.IDENTIFIER = TokenKind.INDENT ∧
    ¬ (KEYWORDS s).getD TokenKind.IDENTIFIER = TokenKind.DEDENT := by
  rcases hk : KEYWORDS s with _ | k
  · simp
  · have hmem : (s, k) ∈ KEYWORDS_LIST := lookup_mem_kw _ _ _ hk
    have hall : ∀ p ∈ KEYWORDS_LIST,
        ¬ p.2 = TokenKind.INDENT ∧ ¬ p.2 = TokenKind.DEDENT := by decide
    simpa using hall _ hmem

lemma scanTok_inv (line : Int) (toks : List Token) (stack : List Nat)
    (c : Char) (r : List Char)
    (hB : BalancedPrefixes toks)
    (hC : countDedent toks + stack.length = countIndent toks + 1)
    (hN : EndsNL (c :: r)) :
    (∃ e, scanTok line toks stack (c :: r) = StepRes.err e) ∨
    (∃ line2 toks2 rest2,
      scanTok line toks stack (c :: r) = StepRes.next line2 toks2 stack rest2 ∧
      BalancedPrefixes toks2 ∧
      countDedent toks2 + stack.length = countIndent toks2 + 1 ∧
      (EndsNL rest2 ∨ (rest2 = [] ∧ lastKind toks2 = some TokenKind.NEWLINE))) := by
  by_cases h1 : c = '('
  · subst h1
    right
    obtain ⟨hB2, hC2⟩ := next_ok toks (tk TokenKind.LEFT_PAREN line "(") stack hB hC
      (by simp [tk]) (by simp [tk])
    exact ⟨line, _, r, rfl, hB2, hC2, Or.inl (endsNL_tail hN (by decide))⟩
  by_cases h2 : c = ')'
  · subst h2
    right
    obtain ⟨hB2, hC2⟩ := next_ok toks (tk TokenKind.RIGHT_PAREN line ")") stack hB hC
      (by simp [tk]) (by simp [tk])
    exact ⟨line, _, r, rfl, hB2, hC2, Or.inl (endsNL_tail hN (by decide))⟩
  by_cases h3 : c = ':'
  · subst h3
    right
    obtain ⟨hB2, hC2⟩ := next_ok toks (tk TokenKind.COLON line ":") stack hB hC
      (by simp [tk]) (by simp [tk])
    exact ⟨line, _, r, rfl, hB2, hC2, Or.inl (endsNL_tail hN (by decide))⟩
  by_cases h4 : c = '+'
  · subst h4
    right
    obtain ⟨hB2, hC2⟩ := next_ok toks (tk TokenKind.PLUS line "+") stack hB hC
      (by simp [tk]) (by simp [tk])
    exact ⟨line, _, r, rfl, hB2, hC2, Or.inl (endsNL_tail hN (by decide))⟩
  by_cases h5 : c = '*'
  · subst h5
    right
    obtain ⟨hB2, hC2⟩ := next_ok toks (tk TokenKind.STAR line "*") stack hB hC
      (by simp [tk]) (by simp [tk])
    exact ⟨line, _, r, rfl, hB2, hC2, Or.inl (endsNL_tail hN (by decide))⟩
  by_cases h6 : c = '/'
  · subst h6
    right
    obtain ⟨hB2, hC2⟩ := next_ok toks (tk TokenKind.SLASH line "/") stack hB hC
      (by simp [tk]) (by simp [tk])
    exact ⟨line, _, r, rfl, hB2, hC2, Or.inl (endsNL_tail hN (by decide))⟩
  by_cases h7 : c = '<'
  · subst h7
    right
    obtain ⟨hB2, hC2⟩ := next_ok toks (tk TokenKind.LESS_THAN line "<") stack hB hC
      (by simp [tk]) (by simp [tk])
    exact ⟨line, _, r, rfl, hB2, hC2, Or.inl (endsNL_tail hN (by decide))⟩
  by_cases h8 : c = '#'
  · subst h8
    right
    rcases hcs : commentScan r with ⟨cs, r2⟩
    have hEr2 : EndsNL r2 := by
      have := commentScan_ends r (endsNL_tail hN (by decide))
      rwa [hcs] at this
    obtain ⟨hB2, hC2⟩ := next_ok toks
      { kind := TokenKind.COMMENT, line := line, text := String.mk ('#' :: cs),
        value := Value.str (String.mk ('#' :: cs)) } stack hB hC
      (by simp) (by simp)
    exact ⟨line, _, r2, by simp [scanTok, hcs], hB2, hC2, Or.inl hEr2⟩
  by_cases h9 : c = '\n'
  · subst h9
    right
    obtain ⟨hB2, hC2⟩ := next_ok toks (tk TokenKind.NEWLINE line "\n") stack hB hC
      (by simp [tk]) (by simp [tk])
    refine ⟨line + 1, _, r, rfl, hB2, hC2, ?_⟩
    rcases endsNL_rest hN with ⟨hr, _⟩ | hEr
    · right
      refine ⟨hr, ?_⟩
      rw [lastKind_append]
      simp [tk]
    · exact Or.inl hEr
  by_cases h10 : c = ' '
  · subst h10
    right
    exact ⟨line, toks, r, rfl, hB, hC, Or.inl (endsNL_tail hN (by decide))⟩
  by_cases h11 : c = '-'
  · subst h11
    right
    rcases hmc : matchChar '>' r with ⟨b, r2⟩
    have hEr2 : EndsNL r2 := by
      have := matchChar_ends '>' (by decide) r (endsNL_tail hN (by decide))
      rwa [hmc] at this
    cases b
    · obtain ⟨hB2, hC2⟩ := next_ok toks (tk TokenKind.MINUS line "-") stack hB hC
        (by simp [tk]) (by simp [tk])
      exact ⟨line, _, r2, by simp [scanTok, hmc], hB2, hC2, Or.inl hEr2⟩
    · obtain ⟨hB2, hC2⟩ := next_ok toks (tk TokenKind.ARROW line "->") stack hB hC
        (by simp [tk]) (by simp [tk])
      exact ⟨line, _, r2, by simp [scanTok, hmc], hB2, hC2, Or.inl hEr2⟩
  by_cases h12 : c = '='
  · subst h12
    right
    rcases hmc : matchChar '=' r with ⟨b, r2⟩
    have hEr2 : EndsNL r2 := by
      have := matchChar_ends '=' (by decide) r (endsNL_tail hN (by decide))
      rwa [hmc] at this
    cases b
    · obtain ⟨hB2, hC2⟩ := next_ok toks (tk TokenKind.EQUALS line "=") stack hB hC
        (by simp [tk]) (by simp [tk])
      exact ⟨line, _, r2, by simp [scanTok, hmc], hB2, hC2, Or.inl hEr2⟩
    · obtain ⟨hB2, hC2⟩ := next_ok toks (tk TokenKind.DOUBLE_EQUALS line "==") stack hB hC
        (by simp [tk]) (by simp [tk])
      exact ⟨line, _, r2, by simp [scanTok, hmc], hB2, hC2, Or.inl hEr2⟩
  by_cases h13 : c = '!'
  · subst h13
    rcases hmc : matchChar '=' r with ⟨b, r2⟩
    cases b
    · left
      exact ⟨LexErr.unexpectedBang, by simp [scanTok, hmc]⟩
    · right
      have hEr2 : EndsNL r2 := by
        have := matchChar_ends '=' (by decide) r (endsNL_tail hN (by decide))
        rwa [hmc] at this
      obtain ⟨hB2, hC2⟩ := next_ok toks (tk TokenKind.NOT_EQUALS line "!=") stack hB hC
        (by simp [tk]) (by simp [tk])
      exact ⟨line, _, r2, by simp [scanTok, hmc], hB2, hC2, Or.inl hEr2⟩
  by_cases h14 : c = '"'
  · subst h14
    rcases hss : strScan r with e | ⟨⟨s, r2⟩⟩
    · left
      exact ⟨e, by simp [scanTok, hss]⟩
    · right
      have hEr2 : EndsNL r2 := strScan_ends r s r2 hss (endsNL_tail hN (by decide))
      obtain ⟨hB2, hC2⟩ := next_ok toks
        { kind := TokenKind.STR, line := line,
          text := String.mk ('"' :: (s ++ ['"'])),
          value := Value.str (String.mk s) } stack hB hC (by simp) (by simp)
      exact ⟨line, _, r2, by simp [scanTok, hss], hB2, hC2, Or.inl hEr2⟩
  have hcn : ¬ c = '\n' := h9
  have hEr : EndsNL r := endsNL_tail hN hcn
  by_cases hdig : c.isDigit
  · rcases hds : digitsScan r with ⟨ds, r1⟩
    have hEr1 : EndsNL r1 := by
      have := digitsScan_ends r hEr
      rwa [hds] at this
    by_cases hdot : peekc r1 = '.'
    · obtain ⟨c1, r2, rfl⟩ : ∃ c1 r2, r1 = c1 :: r2 := by
        cases r1 with
        | nil => exact absurd hdot (by decide)
        | cons a t => exact ⟨a, t, rfl⟩
      have hc1 : c1 = '.' := hdot
      have hEr2 : EndsNL r2 := endsNL_tail hEr1 (by rw [hc1]; decide)
      by_cases hd2 : (peekc r2).isDigit
      · rcases hds2 : digitsScan r2 with ⟨ds2, r3⟩
        have hEr3 : EndsNL r3 := by
          have := digitsScan_ends r2 hEr2
          rwa [hds2] at this
        right
        obtain ⟨hB2, hC2⟩ := next_ok toks
          { kind := TokenKind.FLOAT, line := line,
            text := String.mk ((c :: ds) ++ '.' :: ds2),
            value := Value.float (ratOfParts (c :: ds) ds2) } stack hB hC
          (by simp) (by simp)
        refine ⟨line, _, r3, ?_, hB2, hC2, Or.inl hEr3⟩
        simp [scanTok, if_neg h1, if_neg h2, if_neg h3, if_neg h4,
          if_neg h5, if_neg h6, if_neg h7, if_neg h8, if_neg h9, if_neg h10,
          if_neg h11, if_neg h12, if_neg h13, if_neg h14, if_pos hdig, hds,
          hdot, hd2, hds2]
      · left
        refine ⟨LexErr.expectedDigitAfterDot, ?_⟩
        simp [scanTok, if_neg h1, if_neg h2, if_neg h3, if_neg h4,
          if_neg h5, if_neg h6, if_neg h7, if_neg h8, if_neg h9, if_neg h10,
          if_neg h11, if_neg h12, if_neg h13, if_neg h14, if_pos hdig, hds,
          hdot, hd2]
    · right
      obtain ⟨hB2, hC2⟩ := next_ok toks
        { kind := TokenKind.INT, line := line,
          text := String.mk (c :: ds),
          value := Value.int (natOfDigits (c :: ds)) } stack hB hC
        (by simp) (by simp)
      refine ⟨line, _, r1, ?_, hB2, hC2, Or.inl hEr1⟩
      simp only [scanTok, if_neg h1, if_neg h2, if_neg h3, if_neg h4,
        if_neg h5, if_neg h6, if_neg h7, if_neg h8, if_neg h9, if_neg h10,
        if_neg h11, if_neg h12, if_neg h13, if_neg h14, if_pos hdig, hds,
        if_neg hdot]
  by_cases hal : (c.isAlpha ∨ c = '_')
  · right
    rcases his : identScan r with ⟨cs, r2⟩
    have hEr2 : EndsNL r2 := by
      have := identScan_ends r hEr
      rwa [his] at this
    obtain ⟨hkI, hkD⟩ := keyword_kind_ne (String.mk (c :: cs))
    obtain ⟨hB2, hC2⟩ := next_ok toks
      { kind := (KEYWORDS (String.mk (c :: cs))).getD TokenKind.IDENTIFIER,
        line := line, text := String.mk (c :: cs),
        value := if String.mk (c :: cs) = "True" ∨ String.mk (c :: cs) = "False"
          then Value.bool (String.mk (c :: cs) = "True")
          else Value.str (String.mk (c :: cs)) } stack hB hC hkI hkD
    refine ⟨line, _, r2, ?_, hB2, hC2, Or.inl hEr2⟩
    simp only [scanTok, if_neg h1, if_neg h2, if_neg h3, if_neg h4,
      if_neg h5, if_neg h6, if_neg h7, if_neg h8, if_neg h9, if_neg h10,
      if_neg h11, if_neg h12, if_neg h13, if_neg h14, if_neg hdig,
      if_pos hal, his]
  · left
    refine ⟨LexErr.didNotHandle c, ?_⟩
    simp only [scanTok, if_neg h1, if_neg h2, if_neg h3, if_neg h4,
      if_neg h5, if_neg h6, if_neg h7, if_neg h8, if_neg h9, if_neg h10,
      if_neg h11, if_neg h12, if_neg h13, if_neg h14, if_neg hdig,
      if_neg hal]

lemma whitespace_nil_pos (line : Int) (toks : List Token) (current : Nat)
    (stackRest : List Nat) (hlk : lastKind toks = some TokenKind.NEWLINE)
    (hpos : 0 < current) :
    whitespace line toks (current :: stackRest) [] =
      (match dedentLoop line (mkSpaces 0) 0 (current :: stackRest) toks with
       | Except.error e => Except.error e
       | Except.ok (stack2, toks2) => Except.ok (toks2, stack2, [])) := by
  simp [whitespace, skipSpaces, peekc, hlk, hpos, Nat.not_lt_zero]

lemma whitespace_nil_zero (line : Int) (toks : List Token)
    (stackRest : List Nat) (hlk : lastKind toks = some TokenKind.NEWLINE) :
    whitespace line toks (0 :: stackRest) [] =
      Except.ok (toks, 0 :: stackRest, []) := by
  simp [whitespace, skipSpaces, peekc, hlk]

lemma lexStep_inv (line : Int) (toks : List Token) (stack : List Nat)
    (rest : List Char)
    (hS : StackOK stack) (hB : BalancedPrefixes toks)
    (hC : countDedent toks + stack.length = countIndent toks + 1)
    (hN : EndsNL rest ∨ (rest = [] ∧ lastKind toks = some TokenKind.NEWLINE)) :
    (∃ e, lexStep line toks stack rest = StepRes.err e) ∨
    (∃ body l2, lexStep line toks stack rest =
        StepRes.done (body ++ [tk TokenKind.EOF l2 ""]) ∧
      BalancedPrefixes body ∧ countIndent body = countDedent body) ∨
    (∃ line2 toks2 stack2 rest2,
      lexStep line toks stack rest = StepRes.next line2 toks2 stack2 rest2 ∧
      StackOK stack2 ∧ BalancedPrefixes toks2 ∧
      countDedent toks2 + stack2.length = countIndent toks2 + 1 ∧
      (EndsNL rest2 ∨ (rest2 = [] ∧ lastKind toks2 = some TokenKind.NEWLINE))) := by
  by_cases hcond : (toks = [] ∨ lastKind toks = some TokenKind.NEWLINE)
  · rcases hN with hE | ⟨hnil, hlk⟩
    · rcases hw : whitespace line toks stack rest with e | ⟨⟨toks2, stack2, rest2⟩⟩
      · left
        exact ⟨e, by simp [lexStep, if_pos hcond, hw]⟩
      · obtain ⟨hS2, hB2, hC2, hr2⟩ :=
          whitespace_inv line toks stack rest _ _ _ hS hB hC hw
        have hE2 : EndsNL rest2 := by
          rw [hr2]
          exact skipSpaces_ends rest hE
        obtain ⟨c, r, hcr⟩ : ∃ c r, rest2 = c :: r := by
          cases rest2 with
          | nil => exact absurd rfl hE2.1
          | cons a t => exact ⟨a, t, rfl⟩
        have hstep : lexStep line toks stack rest =
            scanTok line toks2 stack2 rest2 := by
          simp [lexStep, if_pos hcond, hw]
        rw [hcr] at hstep hE2
        rcases scanTok_inv line toks2 stack2 c r hB2 hC2 hE2 with
          ⟨e, he⟩ | ⟨l2, t2, r2, hn, hB3, hC3, hN3⟩
        · left
          exact ⟨e, by rw [hstep, he]⟩
        · right; right
          exact ⟨l2, t2, stack2, r2, by rw [hstep, hn], hS2, hB3, hC3, hN3⟩
    · subst hnil
      obtain ⟨current, stackRest, rfl⟩ : ∃ cu t, stack = cu :: t := by
        cases stack with
        | nil => simpa using hS.2
        | cons a t => exact ⟨a, t, rfl⟩
      by_cases hpos : 0 < current
      · rcases hdd : dedentLoop line (mkSpaces 0) 0 (current :: stackRest) toks
            with e | ⟨⟨stackD, toksD⟩⟩
        · left
          refine ⟨e, ?_⟩
          simp [lexStep, if_pos hcond, whitespace_nil_pos line toks current
            stackRest hlk hpos, hdd]
        · obtain ⟨k, hk, hst, htk, hhd⟩ :=
            dedentLoop_spec line (mkSpaces 0) 0 (current :: stackRest) toks
              _ _ hdd
          have hSD : StackOK stackD := by
            rw [hst]
            exact stackOK_drop hS hk
          have hD0 : stackD = [0] := stackOK_zero_top hSD hhd
          have hkL : k + 1 = stackRest.length + 1 := by
            have h1 := congrArg List.length hst
            rw [hD0, List.length_drop] at h1
            simp only [List.length_cons] at h1 hk ⊢
            simp at h1
            omega
          right; left
          refine ⟨toksD, line, ?_, ?_, ?_⟩
          · simp [lexStep, if_pos hcond, whitespace_nil_pos line toks current
              stackRest hlk hpos, hdd, scanTok]
          · rw [htk]
            apply balanced_append_dedents toks k line (mkSpaces 0) hB
            simp only [List.length_cons] at hC hkL
            omega
          · rw [htk, countIndent_append, countDedent_append,
              countIndent_replicate_dedent, countDedent_replicate_dedent]
            simp only [List.length_cons] at hC hkL
            omega
      · have hcur : current = 0 := by omega
        subst hcur
        have hL : (0 :: stackRest : List Nat) = [0] :=
          stackOK_zero_top hS (by intro c hc; simp at hc; omega)
        right; left
        refine ⟨toks, line, ?_, hB, ?_⟩
        · simp [lexStep, if_pos hcond, whitespace_nil_zero line toks
            stackRest hlk, scanTok]
        · have hlen := congrArg List.length hL
          simp only [List.length_cons, List.length_nil] at hlen hC
          omega
  · have hE : EndsNL rest := by
      rcases hN with hE | ⟨hnil, hlk⟩
      · exact hE
      · exact absurd (Or.inr hlk) hcond
    obtain ⟨c, r, rfl⟩ : ∃ c r, rest = c :: r := by
      cases rest with
      | nil => exact absurd rfl hE.1
      | cons a t => exact ⟨a, t, rfl⟩
    have hstep : lexStep line toks stack (c :: r) =
        scanTok line toks stack (c :: r) := by
      simp [lexStep, if_neg hcond]
    rcases scanTok_inv line toks stack c r hB hC hE with
      ⟨e, he⟩ | ⟨l2, t2, r2, hn, hB3, hC3, hN3⟩
    · left
      exact ⟨e, by rw [hstep, he]⟩
    · right; right
      exact ⟨l2, t2, stack, r2, by rw [hstep, hn], hS, hB3, hC3, hN3⟩

lemma lexLoop_balanced (fuel : Nat) : ∀ (line : Int) (toks : List Token)
    (stack : List Nat) (rest : List Char) (ts : List Token),
    StackOK stack → BalancedPrefixes toks →
    countDedent toks + stack.length = countIndent toks + 1 →
    (EndsNL rest ∨ (rest = [] ∧ lastKind toks = some TokenKind.NEWLINE)) →
    lexLoop fuel line toks stack rest = Except.ok ts →
    ∃ body l2, ts = body ++ [tk TokenKind.EOF l2 ""] ∧
      BalancedPrefixes body ∧ countIndent body = countDedent body := by
  induction fuel with
  | zero =>
    intro line toks stack rest ts _ _ _ _ h
    simp [lexLoop] at h
  | succ m ih =>
    intro line toks stack rest ts hS hB hC hN h
    rw [lexLoop] at h
    rcases lexStep_inv line toks stack rest hS hB hC hN with
      ⟨e, he⟩ | ⟨body, l2, hdone, hB2, hE2⟩ |
      ⟨l2, t2, s2, r2, hnext, hS2, hB2, hC2, hN2⟩
    · rw [he] at h
      simp at h
    · rw [hdone] at h
      simp at h
      exact ⟨body, l2, h.symm, hB2, hE2⟩
    · rw [hnext] at h
      exact ih l2 t2 s2 r2 ts hS2 hB2 hC2 hN2 h

lemma indent_matched (body : List Token) (hB : BalancedPrefixes body)
    (hE : countIndent body = countDedent body)
    (i : Nat) (hi : i < body.length)
    (hk : (body.get ⟨i, hi⟩).kind = TokenKind.INDENT) :
    ∃ j, ∃ hj : j < body.length, i < j ∧
      (body.get ⟨j, hj⟩).kind = TokenKind.DEDENT := by
  have htake : body.take (i+1) = body.take i ++ [body.get ⟨i, hi⟩] := by
    rw [List.take_succ]
    congr 1
    rw [List.getElem?_eq_getElem hi]
    rfl
  have h1 : countDedent (body.take i) ≤ countIndent (body.take i) := hB i
  have hI1 : countIndent (body.take (i+1)) =
      countIndent (body.take i) + 1 := by
    rw [htake, countIndent_append, countIndent_single_eq _ hk]
  have hD1 : countDedent (body.take (i+1)) = countDedent (body.take i) := by
    rw [htake, countDedent_append,
      countDedent_single_ne _ (by rw [hk]; decide), Nat.add_zero]
  have hItot : countIndent body =
      countIndent (body.take (i+1)) + countIndent (body.drop (i+1)) := by
    conv_lhs => rw [← List.take_append_drop (i+1) body]
    rw [countIndent_append]
  have hDtot : countDedent body =
      countDedent (body.take (i+1)) + countDedent (body.drop (i+1)) := by
    conv_lhs => rw [← List.take_append_drop (i+1) body]
    rw [countDedent_append]
  have hpos : 0 < countDedent (body.drop (i+1)) := by omega
  rw [countDedent, List.countP_pos_iff] at hpos
  obtain ⟨tok, hmem, hp⟩ := hpos
  have hkD : tok.kind = TokenKind.DEDENT := by simpa using hp
  obtain ⟨⟨j0, hj0⟩, hget⟩ := List.mem_iff_get.mp hmem
  have hj0len : j0 < body.length - (i + 1) := by
    have := hj0
    rwa [List.length_drop] at this
  refine ⟨i + 1 + j0, by omega, by omega, ?_⟩
  have hgd : (body.drop (i+1)).get ⟨j0, hj0⟩ =
      body.get ⟨i + 1 + j0, by omega⟩ := by
    simp [List.getElem_drop]
  rw [← hgd, hget]
  exact hkD

/-- C9: every token list that tokenize returns ends in the EOF token, in
every prefix the DEDENT tokens never outnumber the INDENT tokens, and every
INDENT token is followed by a later DEDENT token strictly before the final
EOF token. -/
theorem c9_tokenize_balanced (source : String) (ts : List Token)
    (h : tokenize source = Except.ok ts) :
    BalancedPrefixes ts ∧ lastKind ts = some TokenKind.EOF ∧
    ∀ i (hi : i < ts.length), (ts.get ⟨i, hi⟩).kind = TokenKind.INDENT →
      ∃ j, ∃ hj : j < ts.length, i < j ∧ j + 1 < ts.length ∧
        (ts.get ⟨j, hj⟩).kind = TokenKind.DEDENT := by
  rcases hsl : source.data.getLast? with _ | last
  · rw [tokenize, hsl] at h
    simp at h
  · rw [tokenize, hsl] at h
    have hcsE : EndsNL (if last = '\n' then source.data
        else source.data ++ ['\n']) := by
      by_cases hlast : last = '\n'
      · rw [if_pos hlast]
        constructor
        · intro hnil
          rw [hnil] at hsl
          simp at hsl
        · rw [hsl, hlast]
      · rw [if_neg hlast]
        exact ⟨by simp, List.getLast?_concat _⟩
    obtain ⟨body, l2, hts, hBb, hEb⟩ :=
      lexLoop_balanced _ 1 [] [0] _ ts
        ⟨by simp, rfl⟩
        (by intro n; simp [countIndent, countDedent])
        rfl (Or.inl hcsE) h
    subst hts
    refine ⟨?_, ?_, ?_⟩
    · apply balanced_append_single _ _ hBb
      rw [countIndent_append, countDedent_append,
        countIndent_single_ne _ (by simp [tk]),
        countDedent_single_ne _ (by simp [tk])]
      omega
    · rw [lastKind_append]
      simp [tk]
    · intro i hi hk
      have hi2 : i < body.length + 1 := by
        simpa using hi
      by_cases hib : i < body.length
      · have hgeti : (body ++ [tk TokenKind.EOF l2 ""]).get ⟨i, hi⟩ =
            body.get ⟨i, hib⟩ := by
          simp only [List.get_eq_getElem]
          exact List.getElem_append_left hib
        rw [hgeti] at hk
        obtain ⟨j, hj, hij, hjD⟩ := indent_matched body hBb hEb i hib hk
        have hjts : j < (body ++ [tk TokenKind.EOF l2 ""]).length := by
          simp
          omega
        refine ⟨j, hjts, hij, by simp; omega, ?_⟩
        have hgetj : (body ++ [tk TokenKind.EOF l2 ""]).get ⟨j, hjts⟩ =
            body.get ⟨j, hj⟩ := by
          simp only [List.get_eq_getElem]
          exact List.getElem_append_left hj
        rw [hgetj]
        exact hjD
      · have hieq : i = body.length := by omega
        have hgeti : (body ++ [tk TokenKind.EOF l2 ""]).get ⟨i, hi⟩ =
            tk TokenKind.EOF l2 "" := by
          simp only [List.get_eq_getElem]
          subst hieq
          exact List.getElem_concat_length _ _ _ rfl _
        rw [hgeti] at hk
        simp [tk] at hk

/-- Witness for c9_tokenize_balanced: the blank indented line source. -/
theorem c9_tokenize_balanced_witness :
    BalancedPrefixes c9WitToks ∧ lastKind c9WitToks = some TokenKind.EOF ∧
    ∀ i (hi : i < c9WitToks.length),
      (c9WitToks.get ⟨i, hi⟩).kind = TokenKind.INDENT →
      ∃ j, ∃ hj : j < c9WitToks.length, i < j ∧ j + 1 < c9WitToks.length ∧
        (c9WitToks.get ⟨j, hj⟩).kind = TokenKind.DEDENT :=
  c9_tokenize_balanced "    \n" c9WitToks (by rfl)

end Tinypy
